import Mathlib

/-!
Verification development for the RopeBridge repository (`src/main.cpp`).

The program enumerates the state graph of the generalized bridge/torch
crossing puzzle.  A configuration is packed into one `unsigned int`
(32 bits): bit 0 is the torch bit, bits `1 .. n` are the person bits, and
one sentinel bit sits directly above the person bits.  `main` builds the
graph for the fixed input `[1, 10, 100, 1000]` with a worklist scan over a
growing node list, deduplicating states through a `std::map` from bit
pattern to node index.

The embedding below follows the source function by function.  C++
`unsigned int` values are modelled as `Nat` kept below `2 ^ 32` (arithmetic
results are reduced `% 2 ^ 32` where the source relies on the fixed word
width).  Functions that throw `std::invalid_argument` or
`std::out_of_range` return `Except error_kind`.  The worklist loop and the
bitmask scans are written with an explicit fuel argument so that they are
structurally recursive and executable; exhausting the fuel yields the
sentinel error `error_kind.OutOfFuel`, which is proved unreachable for the
fuel amounts the embedding supplies.
-/

namespace RopeBridge

/-- Source: `using time_to_cross_type = int;` — crossing times; `int` is modelled
as `Int` (no arithmetic in the program ever overflows `int`: it only copies
times and takes `std::max`). -/
abbrev time_to_cross_type := Int

/-- Source: `bridge_state_type::int_value_type = unsigned int`, modelled as `Nat`
kept below `2 ^ int_value_type_bit_count`. -/
abbrev int_value_type := Nat

/-- Source: `sizeof(unsigned int) * CHAR_BIT` = 32 on the targeted platforms. -/
def int_value_type_bit_count : Nat := 32

/-- Source: `static_cast<int_value_type>(1)`. -/
def one_as_int_value_type : Nat := 1

/-- The torch bit (least significant bit). -/
def torch_bit : Nat := one_as_int_value_type

/-- Source: `bridge_state_type::min_people`. -/
def min_people : Nat := 1

/-- Source: `bridge_state_type::max_people = int_value_type_bit_count - 2`. -/
def max_people : Nat := int_value_type_bit_count - 2

/-- The failure kinds of the program.  The first three correspond to the
`std::invalid_argument` throws of `bridge_state_type` (named as in the
spec), `VectorAtOutOfRange` to `std::vector::at` throwing
`std::out_of_range`, and `OutOfFuel` is the embedding's sentinel for an
exhausted fuel counter (proved unreachable). -/
inductive error_kind where
  | PersonCountOutOfRange
  | CrosserIndexOutOfRange
  | DuplicateCrosserIndices
  | VectorAtOutOfRange
  | OutOfFuel
deriving DecidableEq, Repr

/-- Source: `bridge_state_type::crossing_type`: one directed edge record. -/
structure crossing_type where
  state_index_after_crossing : Nat
  time_to_cross : time_to_cross_type
deriving DecidableEq, Repr

/-- Source: `bridge_state_type`: the packed configuration together with its list
of outgoing crossings. -/
structure bridge_state_type where
  state_repr : Nat
  possible_crossings : List crossing_type
deriving DecidableEq, Repr

namespace bridge_state_type

/-- Source: `validate_people_count`. -/
def validate_people_count (people_count : Nat) : Except error_kind Unit :=
  if people_count < min_people ∨ people_count > max_people then
    .error .PersonCountOutOfRange
  else
    .ok ()

/-- Helper for `get_leading_one_pos`: index of the highest set bit,
computed by at most `fuel` halvings (so it is structurally recursive and
executable).  For `s < 2 ^ fuel` this equals `⌊log₂ s⌋`. -/
def leading_pos_fuel : Nat → Nat → Nat
  | 0, _ => 0
  | fuel + 1, s => if 2 ≤ s then leading_pos_fuel fuel (s / 2) + 1 else 0

/-- Source: `get_leading_one_pos(state_repr) = int_value_type_bit_count - 1 -
__builtin_clz(state_repr)`, i.e. the index of the highest set bit.
`__builtin_clz` has an undefined result on 0 (see the safety claim: the
program never reaches that case); the model returns 0 there. -/
def get_leading_one_pos (state_repr : Nat) : Nat :=
  leading_pos_fuel int_value_type_bit_count state_repr

/-- Source: `get_leading_one(state_repr) = 1 << get_leading_one_pos(state_repr)`. -/
def get_leading_one (state_repr : Nat) : Nat :=
  one_as_int_value_type <<< get_leading_one_pos state_repr

/-- Source: `validate_crosser_index`: rejects `crosser_index >= leading_one_pos - 1`.
(For every state the program constructs, `leading_one_pos ≥ 2`, so the
truncated `Nat` subtraction agrees with the C++ `size_t` subtraction.) -/
def validate_crosser_index (state_repr : Nat) (crosser_index : Nat) :
    Except error_kind Unit :=
  if crosser_index ≥ get_leading_one_pos state_repr - 1 then
    .error .CrosserIndexOutOfRange
  else
    .ok ()

/-- Source: `bridge_state_type::start`: sentinel at `people_count + 1`, all person
bits and the torch bit 0. -/
def start (people_count : Nat) : Except error_kind bridge_state_type :=
  match validate_people_count people_count with
  | .error e => .error e
  | .ok _ =>
      .ok { state_repr :=
              (one_as_int_value_type <<< (people_count + 1)) % 2 ^ int_value_type_bit_count,
            possible_crossings := [] }

/-- Source: `bridge_state_type::end`: the source computes
`(one_as_int_value_type << (people_count + 2)) - 1`, intending the
configuration with sentinel at `people_count + 1` and all person bits and
the torch bit 1.  At `people_count = max_people` the shift amount equals
the word width, which ISO C++ leaves undefined; the embedding takes the
shift count modulo the word width, which is what the compilers and ISAs
this source targets (x86, 32-bit ARM) realize for a 32-bit operand, so the
boundary evaluates to `(1 << 0) - 1 = 0` — a word with no sentinel — while
for every smaller `people_count` the masking is the identity and the value
is the intended all-ones pattern. -/
def end_state (people_count : Nat) : Except error_kind bridge_state_type :=
  match validate_people_count people_count with
  | .error e => .error e
  | .ok _ =>
      .ok { state_repr :=
              ((one_as_int_value_type <<< ((people_count + 2) % int_value_type_bit_count)) - 1)
                % 2 ^ int_value_type_bit_count,
            possible_crossings := [] }

/-- Source: `after_single_crossing`: flips the torch bit and the crosser's person
bit (bit `crosser_index + 1`). -/
def after_single_crossing (prior_state : bridge_state_type) (crosser_index : Nat) :
    Except error_kind bridge_state_type :=
  match validate_crosser_index prior_state.state_repr crosser_index with
  | .error e => .error e
  | .ok _ =>
      .ok { state_repr :=
              prior_state.state_repr ^^^ torch_bit
                ^^^ ((1 <<< (crosser_index + 1)) % 2 ^ int_value_type_bit_count),
            possible_crossings := [] }

/-- Source: `after_double_crossing`: validates both indices, rejects equal
indices, then flips the torch bit and both person bits. -/
def after_double_crossing (prior_state : bridge_state_type)
    (first_crosser_index second_crosser_index : Nat) :
    Except error_kind bridge_state_type :=
  match validate_crosser_index prior_state.state_repr first_crosser_index with
  | .error e => .error e
  | .ok _ =>
      match validate_crosser_index prior_state.state_repr second_crosser_index with
      | .error e => .error e
      | .ok _ =>
          if first_crosser_index = second_crosser_index then
            .error .DuplicateCrosserIndices
          else
            .ok { state_repr :=
                    prior_state.state_repr ^^^ torch_bit
                      ^^^ ((1 <<< (first_crosser_index + 1)) % 2 ^ int_value_type_bit_count)
                      ^^^ ((1 <<< (second_crosser_index + 1)) % 2 ^ int_value_type_bit_count),
                  possible_crossings := [] }

/-- Source: `get_torch_crossed`: `(state_repr & 1) == 1`. -/
def get_torch_crossed (st : bridge_state_type) : Bool :=
  st.state_repr &&& 1 == 1

/-- Source: `get_possible_crosser_indices`: bitmask (one bit per person) of the
people on the bank currently holding the torch. -/
def get_possible_crosser_indices (st : bridge_state_type) : Nat :=
  let torch_crossed := get_torch_crossed st
  let result := st.state_repr >>> 1
  let people_mask := get_leading_one result - 1
  let masked := result &&& people_mask
  if !torch_crossed then masked ^^^ people_mask else masked

end bridge_state_type

/-- Source: `states_list_type = std::vector<bridge_state_type>`. -/
abbrev states_list_type := List bridge_state_type

/-- Source: `state_to_index_map_type = std::map<int_value_type, std::size_t>`,
modelled as an association list (all keys the program inserts are
distinct, so only exact lookup matters). -/
abbrev state_to_index_map_type := List (Nat × Nat)

/-- Source: `std::map::find` on the association list. -/
def map_find : state_to_index_map_type → Nat → Option Nat
  | [], _ => none
  | p :: rest, key => if p.1 = key then some p.2 else map_find rest key

/-- Source: `std::map::insert_or_assign`. -/
def insert_or_assign : state_to_index_map_type → Nat → Nat → state_to_index_map_type
  | [], key, val => [(key, val)]
  | p :: rest, key, val =>
      if p.1 = key then (key, val) :: rest else p :: insert_or_assign rest key val

/-- Source: `states.at(idx).possible_crossings.emplace_back(c)`: append crossing
`c` to the node at index `idx` (identity when `idx` is out of range, which
the program never does). -/
def append_crossing : states_list_type → Nat → crossing_type → states_list_type
  | [], _, _ => []
  | st :: rest, 0, c => { st with possible_crossings := st.possible_crossings ++ [c] } :: rest
  | st :: rest, idx + 1, c => st :: append_crossing rest idx c

/-- The mutable state of `main`'s construction: the node list, the
state-to-index map and the connection counter. -/
structure builder_state where
  states : states_list_type
  state_to_states_index : state_to_index_map_type
  connection_count : Nat
deriving DecidableEq, Repr

/-- The tail of `try_add_or_connect_crossed_state` once `create_connection`
is true: bump the counter and append the reciprocal pair of crossing
records. -/
def connect_states (b : builder_state) (curr_state_index crossed_state_index : Nat)
    (time_to_cross : time_to_cross_type) : builder_state :=
  { states :=
      append_crossing
        (append_crossing b.states curr_state_index
          { state_index_after_crossing := crossed_state_index,
            time_to_cross := time_to_cross })
        crossed_state_index
        { state_index_after_crossing := curr_state_index,
          time_to_cross := time_to_cross },
    state_to_states_index := b.state_to_states_index,
    connection_count := b.connection_count + 1 }

/-- Source: `try_add_or_connect_crossed_state`: look the crossed configuration up;
if it is new, append it as a node and register it, and connect; if it is
known with an index greater than the current one, connect; otherwise do
nothing. -/
def try_add_or_connect_crossed_state (b : builder_state) (curr_state_index : Nat)
    (crossed_state : bridge_state_type) (time_to_cross : time_to_cross_type) :
    builder_state :=
  match map_find b.state_to_states_index crossed_state.state_repr with
  | none =>
      let crossed_state_index := b.states.length
      let b1 : builder_state :=
        { states := b.states ++ [crossed_state],
          state_to_states_index :=
            insert_or_assign b.state_to_states_index crossed_state.state_repr
              crossed_state_index,
          connection_count := b.connection_count }
      connect_states b1 curr_state_index crossed_state_index time_to_cross
  | some crossed_state_index =>
      if crossed_state_index > curr_state_index then
        connect_states b curr_state_index crossed_state_index time_to_cross
      else
        b

/-- Source: `std::vector::at`: checked indexing, throws `std::out_of_range`. -/
def vector_at (v : List time_to_cross_type) (idx : Nat) :
    Except error_kind time_to_cross_type :=
  match v.get? idx with
  | some t => .ok t
  | none => .error .VectorAtOutOfRange

/-- The `// iterate single crosser` loop of `main`: scan the eligibility
bitmask from the least significant bit; for each set bit apply
`after_single_crossing` with cost `times_to_cross.at(index)`.  `fuel`
bounds the number of shifts; `int_value_type_bit_count` always suffices
because the mask is a 32-bit value. -/
def iterate_single_crossers (times_to_cross : List time_to_cross_type)
    (curr_state_index : Nat) (curr_state_copy : bridge_state_type) :
    Nat → Nat → Nat → builder_state → Except error_kind builder_state
  | 0, iterated, _, b => if iterated = 0 then .ok b else .error .OutOfFuel
  | fuel + 1, iterated, single_crosser_index, b =>
      if iterated = 0 then .ok b
      else
        let step : Except error_kind builder_state :=
          if iterated &&& 1 = 0 then .ok b
          else
            match bridge_state_type.after_single_crossing curr_state_copy single_crosser_index,
                vector_at times_to_cross single_crosser_index with
            | .ok crossed_state, .ok t =>
                .ok (try_add_or_connect_crossed_state b curr_state_index crossed_state t)
            | .error e, _ => .error e
            | .ok _, .error e => .error e
        match step with
        | .error e => .error e
        | .ok b1 =>
            iterate_single_crossers times_to_cross curr_state_index curr_state_copy fuel
              (iterated >>> 1) (single_crosser_index + 1) b1

/-- The inner loop of `// iterate double crossers`: scan the remaining
mask for the second crosser, apply `after_double_crossing` with cost
`max(times.at(first), times.at(second))`. -/
def iterate_second_crossers (times_to_cross : List time_to_cross_type)
    (curr_state_index : Nat) (curr_state_copy : bridge_state_type)
    (first_crosser_index : Nat) :
    Nat → Nat → Nat → builder_state → Except error_kind builder_state
  | 0, iterated, _, b => if iterated = 0 then .ok b else .error .OutOfFuel
  | fuel + 1, iterated, second_crosser_index, b =>
      if iterated = 0 then .ok b
      else
        let step : Except error_kind builder_state :=
          if iterated &&& 1 = 0 then .ok b
          else
            match bridge_state_type.after_double_crossing curr_state_copy
                first_crosser_index second_crosser_index,
                vector_at times_to_cross first_crosser_index,
                vector_at times_to_cross second_crosser_index with
            | .ok crossed_state, .ok t1, .ok t2 =>
                .ok (try_add_or_connect_crossed_state b curr_state_index crossed_state
                      (max t1 t2))
            | .error e, _, _ => .error e
            | .ok _, .error e, _ => .error e
            | .ok _, .ok _, .error e => .error e
        match step with
        | .error e => .error e
        | .ok b1 =>
            iterate_second_crossers times_to_cross curr_state_index curr_state_copy
              first_crosser_index fuel (iterated >>> 1) (second_crosser_index + 1) b1

/-- The outer loop of `// iterate double crossers`: scan the mask for the
first crosser; for each set bit run the inner scan starting one position
past it. -/
def iterate_double_crossers (times_to_cross : List time_to_cross_type)
    (curr_state_index : Nat) (curr_state_copy : bridge_state_type) :
    Nat → Nat → Nat → builder_state → Except error_kind builder_state
  | 0, iterated, _, b => if iterated = 0 then .ok b else .error .OutOfFuel
  | fuel + 1, iterated, first_crosser_index, b =>
      if iterated = 0 then .ok b
      else
        let step : Except error_kind builder_state :=
          if iterated &&& 1 = 0 then .ok b
          else
            iterate_second_crossers times_to_cross curr_state_index curr_state_copy
              first_crosser_index fuel (iterated >>> 1) (first_crosser_index + 1) b
        match step with
        | .error e => .error e
        | .ok b1 =>
            iterate_double_crossers times_to_cross curr_state_index curr_state_copy fuel
              (iterated >>> 1) (first_crosser_index + 1) b1

/-- The worklist loop of `main`: process nodes in index order while the
index is below the (growing) list length.  Each fuel unit pays for one
iteration; the fuel the program supplies (`2 ^ 32 + 1`) is proved
sufficient, so `OutOfFuel` is unreachable. -/
def build_loop (times_to_cross : List time_to_cross_type) :
    Nat → Nat → builder_state → Except error_kind builder_state
  | 0, curr_state_index, b =>
      if curr_state_index < b.states.length then .error .OutOfFuel else .ok b
  | fuel + 1, curr_state_index, b =>
      match b.states.get? curr_state_index with
      | none => .ok b
      | some curr_state_copy =>
          let possible_crosser_indices :=
            bridge_state_type.get_possible_crosser_indices curr_state_copy
          match iterate_single_crossers times_to_cross curr_state_index curr_state_copy
              int_value_type_bit_count possible_crosser_indices 0 b with
          | .error e => .error e
          | .ok b1 =>
              match iterate_double_crossers times_to_cross curr_state_index curr_state_copy
                  int_value_type_bit_count possible_crosser_indices 0 b1 with
              | .error e => .error e
              | .ok b2 => build_loop times_to_cross fuel (curr_state_index + 1) b2

/-- Source: `main`'s construction, parameterized by the times vector: create and
index the start and end configurations as nodes 0 and 1, then run the
worklist loop.  (`max_possible_states` in the source only pre-sizes the
vector and has no observable effect.) -/
def build (times_to_cross : List time_to_cross_type) : Except error_kind builder_state :=
  match bridge_state_type.start times_to_cross.length with
  | .error e => .error e
  | .ok start_state =>
      let b1 : builder_state :=
        { states := [start_state],
          state_to_states_index := insert_or_assign [] start_state.state_repr 0,
          connection_count := 0 }
      match bridge_state_type.end_state times_to_cross.length with
      | .error e => .error e
      | .ok end_state =>
          let b2 : builder_state :=
            { states := b1.states ++ [end_state],
              state_to_states_index :=
                insert_or_assign b1.state_to_states_index end_state.state_repr
                  b1.states.length,
              connection_count := 0 }
          build_loop times_to_cross (2 ^ int_value_type_bit_count + 1) 0 b2

/-- The hardcoded example input of `main`. -/
def times_to_cross_main : List time_to_cross_type := [1, 10, 100, 1000]

/-- The graph `main` constructs. -/
def main_build : Except error_kind builder_state := build times_to_cross_main

/-- All directed edge records of a built graph, as
(source index, target index, cost) triples. -/
def edge_records (b : builder_state) : List (Nat × Nat × time_to_cross_type) :=
  (b.states.enum).flatMap fun p =>
    p.2.possible_crossings.map fun c => (p.1, c.state_index_after_crossing, c.time_to_cross)

/-- The packed configuration stored at node index `idx` (0 for an index
out of range, which never occurs in the checks below). -/
def repr_at (b : builder_state) (idx : Nat) : Nat :=
  ((b.states.get? idx).map bridge_state_type.state_repr).getD 0

/-- No node's crossing list mentions the node's own index. -/
def no_self_loop (states : states_list_type) : Prop :=
  ∀ k st, states.get? k = some st →
    ∀ c ∈ st.possible_crossings, c.state_index_after_crossing ≠ k

/-- The configuration `s` encodes exactly `n` people: the sentinel bit is
at position `n + 1`. -/
def has_people (s : Nat) (n : Nat) : Prop :=
  2 ^ (n + 1) ≤ s ∧ s < 2 ^ (n + 2)

/-- The packed configurations of the node list, in node-index order. -/
def reprs (b : builder_state) : List Nat :=
  b.states.map bridge_state_type.state_repr

/-- The construction invariant: every stored configuration fits in the
32-bit word, configurations are pairwise distinct, every stored
configuration has an entry in the state-to-index map, and no node records
a crossing to itself. -/
def builder_inv (b : builder_state) : Prop :=
  (∀ r ∈ reprs b, r < 2 ^ int_value_type_bit_count)
    ∧ (reprs b).Nodup
    ∧ (∀ r ∈ reprs b, (map_find b.state_to_states_index r).isSome = true)
    ∧ no_self_loop b.states

deriving instance DecidableEq for Except

/-! ### Facts about the leading-bit computation -/

theorem min_people_eq : min_people = 1 := rfl

theorem max_people_eq : max_people = 30 := rfl

theorem int_value_type_bit_count_eq : int_value_type_bit_count = 32 := rfl

theorem leading_pos_fuel_eq :
    ∀ (fuel k s : Nat), k < fuel → 2 ^ k ≤ s → s < 2 ^ (k + 1) →
      bridge_state_type.leading_pos_fuel fuel s = k := by
  intro fuel
  induction fuel with
  | zero => intro k s hk _ _; exact absurd hk (Nat.not_lt_zero k)
  | succ fuel ih =>
      intro k s hk h1 h2
      cases k with
      | zero =>
          have hs : ¬ 2 ≤ s := by
            have h2' : s < 2 := by simpa using h2
            omega
          simp [bridge_state_type.leading_pos_fuel, hs]
      | succ k =>
          have hs : 2 ≤ s := by
            have hp : (2 : Nat) ^ 1 ≤ 2 ^ (k + 1) := Nat.pow_le_pow_right (by omega) (by omega)
            calc (2 : Nat) = 2 ^ 1 := by norm_num
              _ ≤ 2 ^ (k + 1) := hp
              _ ≤ s := h1
          have hdiv1 : 2 ^ k ≤ s / 2 := by
            rw [Nat.le_div_iff_mul_le (by omega)]
            calc 2 ^ k * 2 = 2 ^ (k + 1) := (pow_succ 2 k).symm
              _ ≤ s := h1
          have hdiv2 : s / 2 < 2 ^ (k + 1) := by
            rw [Nat.div_lt_iff_lt_mul (by omega)]
            calc s < 2 ^ (k + 2) := h2
              _ = 2 ^ (k + 1) * 2 := pow_succ 2 (k + 1)
          simp only [bridge_state_type.leading_pos_fuel, if_pos hs]
          rw [ih k (s / 2) (by omega) hdiv1 hdiv2]

theorem leading_pos_fuel_lt :
    ∀ (fuel s : Nat), s < 2 ^ fuel → 0 < fuel →
      bridge_state_type.leading_pos_fuel fuel s < fuel := by
  intro fuel
  induction fuel with
  | zero => intro s _ h; exact absurd h (by omega)
  | succ fuel ih =>
      intro s hs _
      by_cases h2 : 2 ≤ s
      · have hf : 0 < fuel := by
          rcases Nat.eq_zero_or_pos fuel with h | h
          · subst h; simp at hs; omega
          · exact h
        have hdiv : s / 2 < 2 ^ fuel := by
          rw [Nat.div_lt_iff_lt_mul (by omega)]
          calc s < 2 ^ (fuel + 1) := hs
            _ = 2 ^ fuel * 2 := pow_succ 2 fuel
        have hrec := ih (s / 2) hdiv hf
        simp only [bridge_state_type.leading_pos_fuel, if_pos h2]
        omega
      · simp only [bridge_state_type.leading_pos_fuel, if_neg h2]
        omega

theorem get_leading_one_pos_eq {s k : Nat} (hk : k < 32) (h1 : 2 ^ k ≤ s)
    (h2 : s < 2 ^ (k + 1)) : bridge_state_type.get_leading_one_pos s = k :=
  leading_pos_fuel_eq 32 k s hk h1 h2

theorem get_leading_one_pos_le {s : Nat} (hs : s < 2 ^ 32) :
    bridge_state_type.get_leading_one_pos s ≤ 31 := by
  have h := leading_pos_fuel_lt 32 s hs (by omega)
  have he : bridge_state_type.get_leading_one_pos s
      = bridge_state_type.leading_pos_fuel 32 s := rfl
  omega

theorem shift_one_mod {k : Nat} (hk : k < 32) :
    ((1 : Nat) <<< k) % 2 ^ 32 = 2 ^ k := by
  rw [Nat.shiftLeft_eq, one_mul, Nat.mod_eq_of_lt (Nat.pow_lt_pow_right (by omega) hk)]

theorem shift_sub_one_mod {k : Nat} (hk : k ≤ 32) :
    (((1 : Nat) <<< k) - 1) % 2 ^ 32 = 2 ^ k - 1 := by
  have hle : (2 : Nat) ^ k ≤ 2 ^ 32 := Nat.pow_le_pow_right (by omega) hk
  have hpos : (0 : Nat) < 2 ^ k := Nat.pos_pow_of_pos k (by omega)
  rw [Nat.shiftLeft_eq, one_mul, Nat.mod_eq_of_lt (by omega)]

/-! ### State-codec lemmas -/

theorem validate_people_count_ok {n : Nat} :
    bridge_state_type.validate_people_count n = .ok ()
      ↔ min_people ≤ n ∧ n ≤ max_people := by
  unfold bridge_state_type.validate_people_count
  by_cases h : n < min_people ∨ n > max_people
  · rw [if_pos h]
    simp only [min_people_eq, max_people_eq] at h ⊢
    constructor
    · intro hh; exact absurd hh (by simp)
    · intro hh; omega
  · rw [if_neg h]
    simp only [min_people_eq, max_people_eq] at h ⊢
    constructor
    · intro _; omega
    · intro _; trivial

theorem validate_people_count_cases (n : Nat) :
    (bridge_state_type.validate_people_count n = .ok ()
        ∧ min_people ≤ n ∧ n ≤ max_people)
      ∨ (bridge_state_type.validate_people_count n = .error .PersonCountOutOfRange
        ∧ ¬(min_people ≤ n ∧ n ≤ max_people)) := by
  by_cases h : min_people ≤ n ∧ n ≤ max_people
  · exact .inl ⟨validate_people_count_ok.mpr h, h⟩
  · refine .inr ⟨?_, h⟩
    unfold bridge_state_type.validate_people_count
    rw [if_pos]
    simp only [min_people_eq, max_people_eq] at h ⊢
    omega

theorem start_eq {n : Nat} (h1 : min_people ≤ n) (h2 : n ≤ max_people) :
    bridge_state_type.start n = .ok ⟨2 ^ (n + 1), []⟩ := by
  have hv : bridge_state_type.validate_people_count n = .ok () :=
    validate_people_count_ok.mpr ⟨h1, h2⟩
  have hn : n ≤ 30 := by rw [max_people_eq] at h2; exact h2
  unfold bridge_state_type.start
  rw [hv]
  simp only [one_as_int_value_type, int_value_type_bit_count_eq]
  rw [shift_one_mod (by omega)]

theorem end_state_eq {n : Nat} (h1 : min_people ≤ n) (h2 : n < max_people) :
    bridge_state_type.end_state n = .ok ⟨2 ^ (n + 2) - 1, []⟩ := by
  have hv : bridge_state_type.validate_people_count n = .ok () :=
    validate_people_count_ok.mpr ⟨h1, by omega⟩
  have hn : n < 30 := by rw [max_people_eq] at h2; exact h2
  unfold bridge_state_type.end_state
  rw [hv]
  simp only [one_as_int_value_type, int_value_type_bit_count_eq]
  rw [Nat.mod_eq_of_lt (show n + 2 < 32 by omega), shift_sub_one_mod (by omega)]

theorem end_state_boundary :
    bridge_state_type.end_state max_people = .ok ⟨0, []⟩ := by decide

theorem start_ok_inv {n : Nat} {st : bridge_state_type}
    (h : bridge_state_type.start n = .ok st) :
    min_people ≤ n ∧ n ≤ max_people ∧ st = ⟨2 ^ (n + 1), []⟩ := by
  rcases validate_people_count_cases n with ⟨hv, hr⟩ | ⟨hv, hr⟩
  · refine ⟨hr.1, hr.2, ?_⟩
    rw [start_eq hr.1 hr.2] at h
    exact (Except.ok.inj h).symm
  · unfold bridge_state_type.start at h
    rw [hv] at h
    simp at h

theorem end_state_ok_inv {n : Nat} {st : bridge_state_type}
    (h : bridge_state_type.end_state n = .ok st) :
    min_people ≤ n ∧ n ≤ max_people
      ∧ ((n < max_people ∧ st = ⟨2 ^ (n + 2) - 1, []⟩)
          ∨ (n = max_people ∧ st = ⟨0, []⟩)) := by
  rcases validate_people_count_cases n with ⟨hv, hr⟩ | ⟨hv, hr⟩
  · refine ⟨hr.1, hr.2, ?_⟩
    by_cases hb : n < max_people
    · left
      rw [end_state_eq hr.1 hb] at h
      exact ⟨hb, (Except.ok.inj h).symm⟩
    · right
      have hn : n = max_people := by
        have h2 := hr.2
        omega
      rw [hn, end_state_boundary] at h
      exact ⟨hn, (Except.ok.inj h).symm⟩
  · unfold bridge_state_type.end_state at h
    rw [hv] at h
    simp at h

theorem start_error_kind {n : Nat} {e : error_kind}
    (h : bridge_state_type.start n = .error e) : e = .PersonCountOutOfRange := by
  rcases validate_people_count_cases n with ⟨hv, _⟩ | ⟨hv, _⟩ <;>
    unfold bridge_state_type.start at h <;> rw [hv] at h <;> simp at h
  exact h.symm

theorem end_state_error_kind {n : Nat} {e : error_kind}
    (h : bridge_state_type.end_state n = .error e) : e = .PersonCountOutOfRange := by
  rcases validate_people_count_cases n with ⟨hv, _⟩ | ⟨hv, _⟩ <;>
    unfold bridge_state_type.end_state at h <;> rw [hv] at h <;> simp at h
  exact h.symm

theorem validate_crosser_index_cases (s i : Nat) :
    (bridge_state_type.validate_crosser_index s i = .ok ()
        ∧ i < bridge_state_type.get_leading_one_pos s - 1)
      ∨ (bridge_state_type.validate_crosser_index s i = .error .CrosserIndexOutOfRange
        ∧ i ≥ bridge_state_type.get_leading_one_pos s - 1) := by
  unfold bridge_state_type.validate_crosser_index
  by_cases h : i ≥ bridge_state_type.get_leading_one_pos s - 1
  · exact .inr ⟨by rw [if_pos h], h⟩
  · exact .inl ⟨by rw [if_neg h], by omega⟩

theorem after_single_ok_inv {st : bridge_state_type} {i : Nat} {r : bridge_state_type}
    (h : bridge_state_type.after_single_crossing st i = .ok r) :
    i + 1 < bridge_state_type.get_leading_one_pos st.state_repr
      ∧ r = ⟨st.state_repr ^^^ torch_bit
              ^^^ ((1 <<< (i + 1)) % 2 ^ int_value_type_bit_count), []⟩ := by
  unfold bridge_state_type.after_single_crossing at h
  rcases validate_crosser_index_cases st.state_repr i with ⟨hv, hlt⟩ | ⟨hv, _⟩
  · rw [hv] at h
    refine ⟨by omega, ?_⟩
    exact (Except.ok.inj h).symm
  · rw [hv] at h
    simp at h

theorem after_single_error_kind {st : bridge_state_type} {i : Nat} {e : error_kind}
    (h : bridge_state_type.after_single_crossing st i = .error e) :
    e = .CrosserIndexOutOfRange := by
  unfold bridge_state_type.after_single_crossing at h
  rcases validate_crosser_index_cases st.state_repr i with ⟨hv, _⟩ | ⟨hv, _⟩ <;> rw [hv] at h
  · simp at h
  · simp at h
    exact h.symm

theorem after_double_ok_inv {st : bridge_state_type} {i j : Nat} {r : bridge_state_type}
    (h : bridge_state_type.after_double_crossing st i j = .ok r) :
    i + 1 < bridge_state_type.get_leading_one_pos st.state_repr
      ∧ j + 1 < bridge_state_type.get_leading_one_pos st.state_repr
      ∧ i ≠ j
      ∧ r = ⟨st.state_repr ^^^ torch_bit
              ^^^ ((1 <<< (i + 1)) % 2 ^ int_value_type_bit_count)
              ^^^ ((1 <<< (j + 1)) % 2 ^ int_value_type_bit_count), []⟩ := by
  unfold bridge_state_type.after_double_crossing at h
  rcases validate_crosser_index_cases st.state_repr i with ⟨hvi, hlti⟩ | ⟨hvi, _⟩
  · rw [hvi] at h
    rcases validate_crosser_index_cases st.state_repr j with ⟨hvj, hltj⟩ | ⟨hvj, _⟩
    · rw [hvj] at h
      by_cases hij : i = j
      · rw [if_pos hij] at h; simp at h
      · rw [if_neg hij] at h
        exact ⟨by omega, by omega, hij, (Except.ok.inj h).symm⟩
    · rw [hvj] at h; simp at h
  · rw [hvi] at h; simp at h

theorem after_double_eq_ok {st : bridge_state_type} {i j : Nat}
    (hi : i + 1 < bridge_state_type.get_leading_one_pos st.state_repr)
    (hj : j + 1 < bridge_state_type.get_leading_one_pos st.state_repr)
    (hij : i ≠ j) :
    bridge_state_type.after_double_crossing st i j
      = .ok ⟨st.state_repr ^^^ torch_bit
              ^^^ ((1 <<< (i + 1)) % 2 ^ int_value_type_bit_count)
              ^^^ ((1 <<< (j + 1)) % 2 ^ int_value_type_bit_count), []⟩ := by
  unfold bridge_state_type.after_double_crossing
  rcases validate_crosser_index_cases st.state_repr i with ⟨hvi, _⟩ | ⟨_, hgei⟩
  · rw [hvi]
    rcases validate_crosser_index_cases st.state_repr j with ⟨hvj, _⟩ | ⟨_, hgej⟩
    · rw [hvj, if_neg hij]
    · exact absurd hgej (by omega)
  · exact absurd hgei (by omega)

theorem after_double_error_iff {st : bridge_state_type} {i j : Nat} :
    (∃ e, bridge_state_type.after_double_crossing st i j = .error e)
      ↔ (i = j ∨ i ≥ bridge_state_type.get_leading_one_pos st.state_repr - 1
          ∨ j ≥ bridge_state_type.get_leading_one_pos st.state_repr - 1) := by
  constructor
  · rintro ⟨e, he⟩
    by_contra hcon
    push_neg at hcon
    obtain ⟨hij, hi, hj⟩ := hcon
    have hpos : 1 ≤ bridge_state_type.get_leading_one_pos st.state_repr := by omega
    rw [after_double_eq_ok (by omega) (by omega) hij] at he
    simp at he
  · intro hh
    by_cases hgei : i ≥ bridge_state_type.get_leading_one_pos st.state_repr - 1
    · rcases validate_crosser_index_cases st.state_repr i with ⟨_, hlt⟩ | ⟨hvi, _⟩
      · exact absurd hlt (by omega)
      · refine ⟨.CrosserIndexOutOfRange, ?_⟩
        unfold bridge_state_type.after_double_crossing
        rw [hvi]
    · by_cases hgej : j ≥ bridge_state_type.get_leading_one_pos st.state_repr - 1
      · rcases validate_crosser_index_cases st.state_repr i with ⟨hvi, _⟩ | ⟨_, hge⟩
        · rcases validate_crosser_index_cases st.state_repr j with ⟨_, hlt⟩ | ⟨hvj, _⟩
          · exact absurd hlt (by omega)
          · refine ⟨.CrosserIndexOutOfRange, ?_⟩
            unfold bridge_state_type.after_double_crossing
            rw [hvi, hvj]
        · exact absurd hge (by omega)
      · have hij : i = j := by omega
        rcases validate_crosser_index_cases st.state_repr i with ⟨hvi, _⟩ | ⟨_, hge⟩
        · rcases validate_crosser_index_cases st.state_repr j with ⟨hvj, _⟩ | ⟨_, hge⟩
          · refine ⟨.DuplicateCrosserIndices, ?_⟩
            unfold bridge_state_type.after_double_crossing
            rw [hvi, hvj, if_pos hij]
          · exact absurd hge (by omega)
        · exact absurd hge (by omega)

theorem after_double_error_kind {st : bridge_state_type} {i j : Nat} {e : error_kind}
    (h : bridge_state_type.after_double_crossing st i j = .error e) :
    e = .CrosserIndexOutOfRange ∨ e = .DuplicateCrosserIndices := by
  unfold bridge_state_type.after_double_crossing at h
  rcases validate_crosser_index_cases st.state_repr i with ⟨hvi, _⟩ | ⟨hvi, _⟩ <;> rw [hvi] at h
  · rcases validate_crosser_index_cases st.state_repr j with ⟨hvj, _⟩ | ⟨hvj, _⟩ <;> rw [hvj] at h
    · by_cases hij : i = j
      · rw [if_pos hij] at h; simp at h; exact .inr h.symm
      · rw [if_neg hij] at h; simp at h
    · simp at h; exact .inl h.symm
  · simp at h; exact .inl h.symm

theorem vector_at_ok_iff {v : List time_to_cross_type} {i : Nat} {t : time_to_cross_type} :
    vector_at v i = .ok t ↔ v.get? i = some t := by
  unfold vector_at
  cases h : v.get? i <;> simp

theorem vector_at_error_kind {v : List time_to_cross_type} {i : Nat} {e : error_kind}
    (h : vector_at v i = .error e) : e = .VectorAtOutOfRange := by
  unfold vector_at at h
  cases hv : v.get? i <;> rw [hv] at h <;> simp at h
  exact h.symm

theorem get_torch_crossed_eq (st : bridge_state_type) :
    bridge_state_type.get_torch_crossed st = st.state_repr.testBit 0 := by
  unfold bridge_state_type.get_torch_crossed
  rw [Nat.and_one_is_mod, Nat.testBit_zero]
  rcases Nat.mod_two_eq_zero_or_one st.state_repr with h | h <;> rw [h] <;> rfl

/-! ### Sentinel-shape lemmas -/

theorem has_people_lt_word {s n : Nat} (hn : n ≤ max_people) (h : has_people s n) :
    s < 2 ^ 32 := by
  have hb : n ≤ 30 := by rw [max_people_eq] at hn; exact hn
  have hle : (2 : Nat) ^ (n + 2) ≤ 2 ^ 32 := Nat.pow_le_pow_right (by omega) (by omega)
  exact lt_of_lt_of_le h.2 hle

theorem has_people_pos {s n : Nat} (hn : n ≤ max_people) (h : has_people s n) :
    bridge_state_type.get_leading_one_pos s = n + 1 := by
  have hb : n ≤ 30 := by rw [max_people_eq] at hn; exact hn
  exact get_leading_one_pos_eq (by omega) h.1 h.2

theorem testBit_sentinel {s n : Nat} (h : has_people s n) :
    s.testBit (n + 1) = true := by
  have hdiv : s / 2 ^ (n + 1) = 1 := by
    apply Nat.div_eq_of_lt_le
    · simpa using h.1
    · have h2 : s < 2 ^ (n + 2) := h.2
      have heq : (2 : Nat) ^ (n + 2) = 2 * 2 ^ (n + 1) := by ring
      omega
  rw [Nat.testBit_to_div_mod, hdiv]
  rfl

theorem has_people_of_testBit {s n : Nat} (hbit : s.testBit (n + 1) = true)
    (hlt : s < 2 ^ (n + 2)) : has_people s n :=
  ⟨Nat.testBit_implies_ge hbit, hlt⟩

theorem has_people_ne_zero {s n : Nat} (h : has_people s n) :
    s ≠ 0 ∧ s >>> 1 ≠ 0 := by
  have h1 : 2 ^ (n + 1) ≤ s := h.1
  have hp : (0 : Nat) < 2 ^ (n + 1) := by positivity
  refine ⟨by omega, ?_⟩
  rw [Nat.shiftRight_one]
  have hd : 2 ^ n ≤ s / 2 := by
    rw [Nat.le_div_iff_mul_le (by omega)]
    calc 2 ^ n * 2 = 2 ^ (n + 1) := (pow_succ 2 n).symm
      _ ≤ s := h1
  have hp2 : (0 : Nat) < 2 ^ n := by positivity
  omega

theorem two_pow_testBit_ne {a b : Nat} (h : a ≠ b) :
    Nat.testBit (2 ^ a) b = false := by
  rw [Nat.testBit_two_pow]
  simp only [decide_eq_false_iff_not]
  exact h

theorem torch_bit_testBit {m : Nat} (hm : 0 < m) :
    Nat.testBit torch_bit m = false := by
  show Nat.testBit 1 m = false
  have h1 : (1 : Nat) = 2 ^ 0 := rfl
  rw [h1]
  exact two_pow_testBit_ne (by omega)

theorem has_people_xor {x y n : Nat} (hx : has_people x n) (hy : y < 2 ^ (n + 2))
    (hyb : y.testBit (n + 1) = false) : has_people (x ^^^ y) n := by
  refine has_people_of_testBit ?_ (Nat.xor_lt_two_pow hx.2 hy)
  rw [Nat.testBit_xor, testBit_sentinel hx, hyb]
  rfl

theorem has_people_xor_torch {s n : Nat} (h : has_people s n) :
    has_people (s ^^^ torch_bit) n := by
  refine has_people_xor h ?_ (torch_bit_testBit (by omega))
  show (1 : Nat) < 2 ^ (n + 2)
  exact Nat.one_lt_two_pow (by omega)

theorem has_people_xor_pow {s n i : Nat} (h : has_people s n) (hi : i < n) :
    has_people (s ^^^ 2 ^ (i + 1)) n := by
  refine has_people_xor h ?_ (two_pow_testBit_ne (by omega))
  exact Nat.pow_lt_pow_right (by omega) (by omega)

theorem after_single_preserves {st : bridge_state_type} {i n : Nat} {r : bridge_state_type}
    (hn : n ≤ max_people) (hp : has_people st.state_repr n)
    (h : bridge_state_type.after_single_crossing st i = .ok r) :
    has_people r.state_repr n ∧ i < n ∧ r.possible_crossings = [] := by
  obtain ⟨hi, hr⟩ := after_single_ok_inv h
  rw [has_people_pos hn hp] at hi
  have hb : n ≤ 30 := by rw [max_people_eq] at hn; exact hn
  have hmod : ((1 : Nat) <<< (i + 1)) % 2 ^ int_value_type_bit_count = 2 ^ (i + 1) := by
    rw [int_value_type_bit_count_eq]
    exact shift_one_mod (by omega)
  subst hr
  refine ⟨?_, by omega, rfl⟩
  show has_people (st.state_repr ^^^ torch_bit
        ^^^ ((1 <<< (i + 1)) % 2 ^ int_value_type_bit_count)) n
  rw [hmod]
  exact has_people_xor_pow (has_people_xor_torch hp) (by omega)

theorem after_double_preserves {st : bridge_state_type} {i j n : Nat}
    {r : bridge_state_type} (hn : n ≤ max_people) (hp : has_people st.state_repr n)
    (h : bridge_state_type.after_double_crossing st i j = .ok r) :
    has_people r.state_repr n ∧ i < n ∧ j < n ∧ i ≠ j ∧ r.possible_crossings = [] := by
  obtain ⟨hi, hj, hij, hr⟩ := after_double_ok_inv h
  rw [has_people_pos hn hp] at hi hj
  have hb : n ≤ 30 := by rw [max_people_eq] at hn; exact hn
  have hmodi : ((1 : Nat) <<< (i + 1)) % 2 ^ int_value_type_bit_count = 2 ^ (i + 1) := by
    rw [int_value_type_bit_count_eq]
    exact shift_one_mod (by omega)
  have hmodj : ((1 : Nat) <<< (j + 1)) % 2 ^ int_value_type_bit_count = 2 ^ (j + 1) := by
    rw [int_value_type_bit_count_eq]
    exact shift_one_mod (by omega)
  subst hr
  refine ⟨?_, by omega, by omega, hij, rfl⟩
  show has_people (st.state_repr ^^^ torch_bit
        ^^^ ((1 <<< (i + 1)) % 2 ^ int_value_type_bit_count)
        ^^^ ((1 <<< (j + 1)) % 2 ^ int_value_type_bit_count)) n
  rw [hmodi, hmodj]
  exact has_people_xor_pow (has_people_xor_pow (has_people_xor_torch hp) (by omega))
    (by omega)

/-! ### Eligibility-mask lemmas -/

theorem gpci_shift_bounds {s n : Nat} (h : has_people s n) :
    2 ^ n ≤ s >>> 1 ∧ s >>> 1 < 2 ^ (n + 1) := by
  rw [Nat.shiftRight_one]
  constructor
  · rw [Nat.le_div_iff_mul_le (by omega)]
    calc 2 ^ n * 2 = 2 ^ (n + 1) := (pow_succ 2 n).symm
      _ ≤ s := h.1
  · rw [Nat.div_lt_iff_lt_mul (by omega)]
    calc s < 2 ^ (n + 2) := h.2
      _ = 2 ^ (n + 1) * 2 := pow_succ 2 (n + 1)

theorem gpci_mask {s n : Nat} (hn : n ≤ max_people) (h : has_people s n) :
    bridge_state_type.get_leading_one (s >>> 1) - 1 = 2 ^ n - 1 := by
  have hb : n ≤ 30 := by rw [max_people_eq] at hn; exact hn
  obtain ⟨h1, h2⟩ := gpci_shift_bounds h
  unfold bridge_state_type.get_leading_one
  rw [get_leading_one_pos_eq (by omega) h1 h2]
  simp only [one_as_int_value_type]
  rw [Nat.shiftLeft_eq, one_mul]

theorem gpci_testBit {st : bridge_state_type} {n : Nat} (hn : n ≤ max_people)
    (h : has_people st.state_repr n) (i : Nat) :
    (bridge_state_type.get_possible_crosser_indices st).testBit i
      = (decide (i < n) && (st.state_repr.testBit (i + 1) == st.state_repr.testBit 0)) := by
  unfold bridge_state_type.get_possible_crosser_indices
  simp only [get_torch_crossed_eq, gpci_mask hn h]
  cases htorch : st.state_repr.testBit 0 with
  | false =>
      rw [if_pos (show (!false) = true from rfl)]
      rw [Nat.testBit_xor, Nat.testBit_land, Nat.testBit_two_pow_sub_one,
        Nat.testBit_shiftRight, Nat.add_comm 1 i]
      by_cases hi : i < n <;> cases htb : st.state_repr.testBit (i + 1) <;>
        simp [hi, htb]
  | true =>
      rw [if_neg (show ¬((!true) = true) from by decide)]
      rw [Nat.testBit_land, Nat.testBit_two_pow_sub_one,
        Nat.testBit_shiftRight, Nat.add_comm 1 i]
      by_cases hi : i < n <;> cases htb : st.state_repr.testBit (i + 1) <;>
        simp [hi, htb]

theorem gpci_start {n : Nat} (h1 : min_people ≤ n) (h2 : n ≤ max_people) :
    bridge_state_type.get_possible_crosser_indices ⟨2 ^ (n + 1), []⟩ = 2 ^ n - 1 := by
  have hp : has_people (2 ^ (n + 1)) n :=
    ⟨le_refl _, Nat.pow_lt_pow_right (by omega) (by omega)⟩
  apply Nat.eq_of_testBit_eq
  intro i
  rw [gpci_testBit h2 hp i]
  conv_rhs => rw [Nat.testBit_two_pow_sub_one]
  by_cases hi : i < n
  · have hbi : (2 ^ (n + 1)).testBit (i + 1) = false :=
      @two_pow_testBit_ne (n + 1) (i + 1) (by omega)
    have hb0 : (2 ^ (n + 1)).testBit 0 = false :=
      @two_pow_testBit_ne (n + 1) 0 (by omega)
    simp [hi, hbi, hb0]
  · simp [hi]

theorem gpci_end {n : Nat} (h1 : min_people ≤ n) (h2 : n ≤ max_people) :
    bridge_state_type.get_possible_crosser_indices ⟨2 ^ (n + 2) - 1, []⟩ = 2 ^ n - 1 := by
  have hpos1 : (0 : Nat) < 2 ^ (n + 1) := by positivity
  have heq : (2 : Nat) ^ (n + 2) = 2 * 2 ^ (n + 1) := by ring
  have hp : has_people (2 ^ (n + 2) - 1) n := by
    constructor
    · omega
    · have hpos2 : (0 : Nat) < 2 ^ (n + 2) := by positivity
      omega
  apply Nat.eq_of_testBit_eq
  intro i
  rw [gpci_testBit h2 hp i]
  conv_rhs => rw [Nat.testBit_two_pow_sub_one]
  by_cases hi : i < n
  · have hbi : (2 ^ (n + 2) - 1).testBit (i + 1) = true := by
      rw [Nat.testBit_two_pow_sub_one]
      simp only [decide_eq_true_eq]
      omega
    have hb0 : (2 ^ (n + 2) - 1).testBit 0 = true := by
      rw [Nat.testBit_two_pow_sub_one]
      simp only [decide_eq_true_eq]
      omega
    simp [hi, hbi, hb0]
  · simp [hi]

/-! ### Graph-builder primitive lemmas -/

theorem append_crossing_length :
    ∀ (ss : states_list_type) (idx : Nat) (c : crossing_type),
      (append_crossing ss idx c).length = ss.length
  | [], _, _ => rfl
  | st :: rest, 0, c => by simp [append_crossing]
  | st :: rest, idx + 1, c => by
      simp only [append_crossing, List.length_cons, append_crossing_length rest idx c]

theorem append_crossing_map_repr :
    ∀ (ss : states_list_type) (idx : Nat) (c : crossing_type),
      (append_crossing ss idx c).map bridge_state_type.state_repr
        = ss.map bridge_state_type.state_repr
  | [], _, _ => rfl
  | st :: rest, 0, c => by simp [append_crossing]
  | st :: rest, idx + 1, c => by
      simp only [append_crossing, List.map_cons]
      rw [append_crossing_map_repr rest idx c]

theorem append_crossing_get? :
    ∀ (ss : states_list_type) (idx k : Nat) (c : crossing_type),
      (append_crossing ss idx c).get? k
        = if k = idx then
            (ss.get? k).map (fun st =>
              { st with possible_crossings := st.possible_crossings ++ [c] })
          else ss.get? k
  | [], idx, k, c => by
      simp [append_crossing, ite_self]
  | st :: rest, 0, 0, c => by simp [append_crossing]
  | st :: rest, 0, k + 1, c => by simp [append_crossing]
  | st :: rest, idx + 1, 0, c => by simp [append_crossing]
  | st :: rest, idx + 1, k + 1, c => by
      simp only [append_crossing, List.get?_cons_succ]
      rw [append_crossing_get? rest idx k c]
      by_cases h : k = idx
      · rw [if_pos h, if_pos (by omega)]
      · rw [if_neg h, if_neg (show ¬(k + 1 = idx + 1) by omega)]

theorem map_find_insert_or_assign :
    ∀ (m : state_to_index_map_type) (key : Nat) (val k : Nat),
      map_find (insert_or_assign m key val) k
        = if k = key then some val else map_find m k
  | [], key, val, k => by
      by_cases h : k = key
      · simp [insert_or_assign, map_find, h]
      · rw [if_neg h]
        simp only [insert_or_assign, map_find]
        rw [if_neg (fun hh => h hh.symm)]
  | p :: rest, key, val, k => by
      by_cases hk : k = key
      · rw [if_pos hk]
        subst hk
        by_cases h1 : p.1 = k
        · simp only [insert_or_assign, if_pos h1]
          simp [map_find]
        · simp only [insert_or_assign, if_neg h1]
          simp only [map_find, if_neg h1]
          rw [map_find_insert_or_assign rest k val k, if_pos rfl]
      · rw [if_neg hk]
        by_cases h1 : p.1 = key
        · simp only [insert_or_assign, if_pos h1]
          simp only [map_find]
          rw [if_neg (fun hh : key = k => hk hh.symm),
            if_neg (fun hh : p.1 = k => hk (by rw [← hh]; exact h1))]
        · simp only [insert_or_assign, if_neg h1]
          simp only [map_find]
          by_cases h2 : p.1 = k
          · rw [if_pos h2, if_pos h2]
          · rw [if_neg h2, if_neg h2]
            rw [map_find_insert_or_assign rest key val k, if_neg hk]

theorem nodup_lt_length_le {l : List Nat} {B : Nat} (hn : l.Nodup)
    (hb : ∀ x ∈ l, x < B) : l.length ≤ B := by
  have h1 : l.toFinset.card = l.length := List.toFinset_card_of_nodup hn
  have h2 : l.toFinset ⊆ Finset.range B := by
    intro x hx
    exact Finset.mem_range.mpr (hb x (List.mem_toFinset.mp hx))
  calc l.length = l.toFinset.card := h1.symm
    _ ≤ (Finset.range B).card := Finset.card_le_card h2
    _ = B := Finset.card_range B

theorem append_crossing_nsl {ss : states_list_type} {idx : Nat} {c0 : crossing_type}
    (hnsl : no_self_loop ss) (hc0 : c0.state_index_after_crossing ≠ idx) :
    no_self_loop (append_crossing ss idx c0) := by
  intro k st hget c hc
  rw [append_crossing_get?] at hget
  by_cases hk : k = idx
  · rw [if_pos hk] at hget
    cases hss : ss.get? k with
    | none => rw [hss] at hget; simp at hget
    | some st0 =>
        rw [hss] at hget
        simp only [Option.map_some'] at hget
        injection hget with hget
        subst hget
        have hc' : c ∈ st0.possible_crossings ++ [c0] := hc
        rcases List.mem_append.mp hc' with h | h
        · exact hnsl k st0 hss c h
        · simp only [List.mem_singleton] at h
          subst h
          rw [hk]
          exact hc0
  · rw [if_neg hk] at hget
    exact hnsl k st hget c hc

theorem nsl_append {ss : states_list_type} {cs : bridge_state_type}
    (h : no_self_loop ss) (hcs : cs.possible_crossings = []) :
    no_self_loop (ss ++ [cs]) := by
  intro k st hget c hc
  rcases Nat.lt_or_ge k ss.length with hk | hk
  · rw [List.get?_append hk] at hget
    exact h k st hget c hc
  · rw [List.get?_append_right hk] at hget
    cases hd : k - ss.length with
    | zero =>
        rw [hd] at hget
        simp only [List.get?_cons_zero] at hget
        injection hget with hget
        subst hget
        rw [hcs] at hc
        simp at hc
    | succ m =>
        rw [hd] at hget
        simp at hget

theorem connect_states_states_length (b : builder_state) (i j : Nat)
    (t : time_to_cross_type) :
    (connect_states b i j t).states.length = b.states.length := by
  simp [connect_states, append_crossing_length]

theorem connect_states_reprs (b : builder_state) (i j : Nat) (t : time_to_cross_type) :
    reprs (connect_states b i j t) = reprs b := by
  simp [connect_states, reprs, append_crossing_map_repr]

theorem connect_states_map_eq (b : builder_state) (i j : Nat) (t : time_to_cross_type) :
    (connect_states b i j t).state_to_states_index = b.state_to_states_index := rfl

theorem connect_states_nsl {b : builder_state} {i j : Nat} {t : time_to_cross_type}
    (hnsl : no_self_loop b.states) (hij : i ≠ j) :
    no_self_loop (connect_states b i j t).states := by
  unfold connect_states
  exact append_crossing_nsl (append_crossing_nsl hnsl (Ne.symm hij)) hij

theorem try_add_none {b : builder_state} {curr : Nat} {cs : bridge_state_type}
    {t : time_to_cross_type}
    (hfind : map_find b.state_to_states_index cs.state_repr = none) :
    try_add_or_connect_crossed_state b curr cs t
      = connect_states
          { states := b.states ++ [cs],
            state_to_states_index :=
              insert_or_assign b.state_to_states_index cs.state_repr b.states.length,
            connection_count := b.connection_count }
          curr b.states.length t := by
  unfold try_add_or_connect_crossed_state
  rw [hfind]

theorem try_add_some_gt {b : builder_state} {curr : Nat} {cs : bridge_state_type}
    {t : time_to_cross_type} {j : Nat}
    (hfind : map_find b.state_to_states_index cs.state_repr = some j) (hj : j > curr) :
    try_add_or_connect_crossed_state b curr cs t = connect_states b curr j t := by
  unfold try_add_or_connect_crossed_state
  rw [hfind]
  show (if j > curr then connect_states b curr j t else b) = connect_states b curr j t
  rw [if_pos hj]

theorem try_add_some_le {b : builder_state} {curr : Nat} {cs : bridge_state_type}
    {t : time_to_cross_type} {j : Nat}
    (hfind : map_find b.state_to_states_index cs.state_repr = some j) (hj : ¬j > curr) :
    try_add_or_connect_crossed_state b curr cs t = b := by
  unfold try_add_or_connect_crossed_state
  rw [hfind]
  show (if j > curr then connect_states b curr j t else b) = b
  rw [if_neg hj]

theorem try_add_builder_inv {b : builder_state} {curr : Nat} {cs : bridge_state_type}
    {t : time_to_cross_type} (hinv : builder_inv b) (hcurr : curr < b.states.length)
    (hlt : cs.state_repr < 2 ^ int_value_type_bit_count)
    (hemp : cs.possible_crossings = []) :
    builder_inv (try_add_or_connect_crossed_state b curr cs t)
      ∧ b.states.length ≤ (try_add_or_connect_crossed_state b curr cs t).states.length := by
  obtain ⟨hb1, hb2, hb3, hb4⟩ := hinv
  cases hfind : map_find b.state_to_states_index cs.state_repr with
  | some j =>
      by_cases hj : j > curr
      · rw [try_add_some_gt hfind hj]
        refine ⟨⟨?_, ?_, ?_, ?_⟩, ?_⟩
        · intro r hr; rw [connect_states_reprs] at hr; exact hb1 r hr
        · rw [connect_states_reprs]; exact hb2
        · intro r hr
          rw [connect_states_reprs] at hr
          rw [connect_states_map_eq]
          exact hb3 r hr
        · exact connect_states_nsl hb4 (by omega)
        · rw [connect_states_states_length]
      · rw [try_add_some_le hfind hj]
        exact ⟨⟨hb1, hb2, hb3, hb4⟩, le_refl _⟩
  | none =>
      have hnotmem : cs.state_repr ∉ reprs b := by
        intro hmem
        have hs := hb3 _ hmem
        rw [hfind] at hs
        simp at hs
      rw [try_add_none hfind]
      have hreprs1 : reprs
          { states := b.states ++ [cs],
            state_to_states_index :=
              insert_or_assign b.state_to_states_index cs.state_repr b.states.length,
            connection_count := b.connection_count }
          = reprs b ++ [cs.state_repr] := by
        simp [reprs]
      refine ⟨⟨?_, ?_, ?_, ?_⟩, ?_⟩
      · intro r hr
        rw [connect_states_reprs, hreprs1] at hr
        rcases List.mem_append.mp hr with h | h
        · exact hb1 r h
        · simp only [List.mem_singleton] at h
          subst h
          exact hlt
      · rw [connect_states_reprs, hreprs1]
        refine List.Nodup.append hb2 (List.nodup_singleton _) ?_
        intro a ha hain
        simp only [List.mem_singleton] at hain
        subst hain
        exact hnotmem ha
      · intro r hr
        rw [connect_states_reprs, hreprs1] at hr
        rw [connect_states_map_eq]
        show (map_find (insert_or_assign b.state_to_states_index cs.state_repr
          b.states.length) r).isSome = true
        rw [map_find_insert_or_assign]
        by_cases hrc : r = cs.state_repr
        · rw [if_pos hrc]; rfl
        · rw [if_neg hrc]
          rcases List.mem_append.mp hr with h | h
          · exact hb3 r h
          · simp only [List.mem_singleton] at h
            exact absurd h hrc
      · apply connect_states_nsl
        · exact nsl_append hb4 hemp
        · omega
      · rw [connect_states_states_length]
        simp

/-! ### Word-size bounds for the codec results -/

theorem after_single_ok_lt {st : bridge_state_type} {i : Nat} {r : bridge_state_type}
    (hs : st.state_repr < 2 ^ int_value_type_bit_count)
    (h : bridge_state_type.after_single_crossing st i = .ok r) :
    r.state_repr < 2 ^ int_value_type_bit_count ∧ r.possible_crossings = [] := by
  obtain ⟨_, hr⟩ := after_single_ok_inv h
  subst hr
  refine ⟨?_, rfl⟩
  show st.state_repr ^^^ torch_bit
      ^^^ ((1 <<< (i + 1)) % 2 ^ int_value_type_bit_count) < 2 ^ int_value_type_bit_count
  apply Nat.xor_lt_two_pow
  · apply Nat.xor_lt_two_pow hs
    show (1 : Nat) < 2 ^ int_value_type_bit_count
    rw [int_value_type_bit_count_eq]
    norm_num
  · exact Nat.mod_lt _ (by positivity)

theorem after_double_ok_lt {st : bridge_state_type} {i j : Nat} {r : bridge_state_type}
    (hs : st.state_repr < 2 ^ int_value_type_bit_count)
    (h : bridge_state_type.after_double_crossing st i j = .ok r) :
    r.state_repr < 2 ^ int_value_type_bit_count ∧ r.possible_crossings = [] := by
  obtain ⟨_, _, _, hr⟩ := after_double_ok_inv h
  subst hr
  refine ⟨?_, rfl⟩
  show st.state_repr ^^^ torch_bit
      ^^^ ((1 <<< (i + 1)) % 2 ^ int_value_type_bit_count)
      ^^^ ((1 <<< (j + 1)) % 2 ^ int_value_type_bit_count) < 2 ^ int_value_type_bit_count
  apply Nat.xor_lt_two_pow
  · apply Nat.xor_lt_two_pow
    · apply Nat.xor_lt_two_pow hs
      show (1 : Nat) < 2 ^ int_value_type_bit_count
      rw [int_value_type_bit_count_eq]
      norm_num
    · exact Nat.mod_lt _ (by positivity)
  · exact Nat.mod_lt _ (by positivity)

/-- Source: `get_possible_crosser_indices` with the local variables inlined. -/
theorem gpci_def (st : bridge_state_type) :
    bridge_state_type.get_possible_crosser_indices st
      = if !bridge_state_type.get_torch_crossed st then
          ((st.state_repr >>> 1)
              &&& (bridge_state_type.get_leading_one (st.state_repr >>> 1) - 1))
            ^^^ (bridge_state_type.get_leading_one (st.state_repr >>> 1) - 1)
        else
          (st.state_repr >>> 1)
            &&& (bridge_state_type.get_leading_one (st.state_repr >>> 1) - 1) := rfl

theorem gpci_lt_word {st : bridge_state_type}
    (hs : st.state_repr < 2 ^ int_value_type_bit_count) :
    bridge_state_type.get_possible_crosser_indices st < 2 ^ int_value_type_bit_count := by
  rw [int_value_type_bit_count_eq] at hs ⊢
  have hr : st.state_repr >>> 1 < 2 ^ 32 := by
    rw [Nat.shiftRight_one]
    omega
  have hpos : bridge_state_type.get_leading_one_pos (st.state_repr >>> 1) ≤ 31 :=
    get_leading_one_pos_le hr
  have hmask : bridge_state_type.get_leading_one (st.state_repr >>> 1)
      = 2 ^ bridge_state_type.get_leading_one_pos (st.state_repr >>> 1) := by
    unfold bridge_state_type.get_leading_one
    simp only [one_as_int_value_type]
    rw [Nat.shiftLeft_eq, one_mul]
  have hppos : (0 : Nat)
      < 2 ^ bridge_state_type.get_leading_one_pos (st.state_repr >>> 1) := by positivity
  have hple : (2 : Nat) ^ bridge_state_type.get_leading_one_pos (st.state_repr >>> 1)
      ≤ 2 ^ 31 := Nat.pow_le_pow_right (by omega) hpos
  have hand : (st.state_repr >>> 1)
      &&& (bridge_state_type.get_leading_one (st.state_repr >>> 1) - 1)
      < 2 ^ bridge_state_type.get_leading_one_pos (st.state_repr >>> 1) := by
    rw [hmask]
    have h1 : (st.state_repr >>> 1)
        &&& (2 ^ bridge_state_type.get_leading_one_pos (st.state_repr >>> 1) - 1)
        ≤ 2 ^ bridge_state_type.get_leading_one_pos (st.state_repr >>> 1) - 1 :=
      Nat.and_le_right
    omega
  have hm1 : bridge_state_type.get_leading_one (st.state_repr >>> 1) - 1
      < 2 ^ bridge_state_type.get_leading_one_pos (st.state_repr >>> 1) := by
    rw [hmask]
    omega
  rw [gpci_def]
  cases bridge_state_type.get_torch_crossed st with
  | false =>
      rw [if_pos (show (!false) = true from rfl)]
      have hx := Nat.xor_lt_two_pow hand hm1
      omega
  | true =>
      rw [if_neg (show ¬((!true) = true) from by decide)]
      omega

/-! ### Equation lemmas for the scan loops -/

theorem iterate_single_zero (tm : List time_to_cross_type) (ci : Nat)
    (cs : bridge_state_type) (fuel idx : Nat) (b : builder_state) :
    iterate_single_crossers tm ci cs fuel 0 idx b = .ok b := by
  cases fuel <;> simp [iterate_single_crossers]

theorem iterate_single_succ_skip (tm : List time_to_cross_type) (ci : Nat)
    (cs : bridge_state_type) (fuel iterated idx : Nat) (b : builder_state)
    (h0 : iterated ≠ 0) (h1 : iterated &&& 1 = 0) :
    iterate_single_crossers tm ci cs (fuel + 1) iterated idx b
      = iterate_single_crossers tm ci cs fuel (iterated >>> 1) (idx + 1) b := by
  conv_lhs => unfold iterate_single_crossers
  rw [if_neg h0, if_pos h1]

theorem iterate_single_succ_hit (tm : List time_to_cross_type) (ci : Nat)
    (cs : bridge_state_type) (fuel iterated idx : Nat) (b : builder_state)
    (h0 : iterated ≠ 0) (h1 : ¬(iterated &&& 1 = 0)) :
    iterate_single_crossers tm ci cs (fuel + 1) iterated idx b
      = match bridge_state_type.after_single_crossing cs idx, vector_at tm idx with
        | .ok crossed, .ok t =>
            iterate_single_crossers tm ci cs fuel (iterated >>> 1) (idx + 1)
              (try_add_or_connect_crossed_state b ci crossed t)
        | .error e, _ => .error e
        | .ok _, .error e => .error e := by
  conv_lhs => unfold iterate_single_crossers
  rw [if_neg h0, if_neg h1]
  cases bridge_state_type.after_single_crossing cs idx <;> cases vector_at tm idx <;> rfl

theorem iterate_second_zero (tm : List time_to_cross_type) (ci : Nat)
    (cs : bridge_state_type) (fc fuel idx : Nat) (b : builder_state) :
    iterate_second_crossers tm ci cs fc fuel 0 idx b = .ok b := by
  cases fuel <;> simp [iterate_second_crossers]

theorem iterate_second_succ_skip (tm : List time_to_cross_type) (ci : Nat)
    (cs : bridge_state_type) (fc fuel iterated idx : Nat) (b : builder_state)
    (h0 : iterated ≠ 0) (h1 : iterated &&& 1 = 0) :
    iterate_second_crossers tm ci cs fc (fuel + 1) iterated idx b
      = iterate_second_crossers tm ci cs fc fuel (iterated >>> 1) (idx + 1) b := by
  conv_lhs => unfold iterate_second_crossers
  rw [if_neg h0, if_pos h1]

theorem iterate_second_succ_hit (tm : List time_to_cross_type) (ci : Nat)
    (cs : bridge_state_type) (fc fuel iterated idx : Nat) (b : builder_state)
    (h0 : iterated ≠ 0) (h1 : ¬(iterated &&& 1 = 0)) :
    iterate_second_crossers tm ci cs fc (fuel + 1) iterated idx b
      = match bridge_state_type.after_double_crossing cs fc idx, vector_at tm fc,
            vector_at tm idx with
        | .ok crossed, .ok t1, .ok t2 =>
            iterate_second_crossers tm ci cs fc fuel (iterated >>> 1) (idx + 1)
              (try_add_or_connect_crossed_state b ci crossed (max t1 t2))
        | .error e, _, _ => .error e
        | .ok _, .error e, _ => .error e
        | .ok _, .ok _, .error e => .error e := by
  conv_lhs => unfold iterate_second_crossers
  rw [if_neg h0, if_neg h1]
  cases bridge_state_type.after_double_crossing cs fc idx <;> cases vector_at tm fc <;>
    cases vector_at tm idx <;> rfl

theorem iterate_double_zero (tm : List time_to_cross_type) (ci : Nat)
    (cs : bridge_state_type) (fuel idx : Nat) (b : builder_state) :
    iterate_double_crossers tm ci cs fuel 0 idx b = .ok b := by
  cases fuel <;> simp [iterate_double_crossers]

theorem iterate_double_succ_skip (tm : List time_to_cross_type) (ci : Nat)
    (cs : bridge_state_type) (fuel iterated idx : Nat) (b : builder_state)
    (h0 : iterated ≠ 0) (h1 : iterated &&& 1 = 0) :
    iterate_double_crossers tm ci cs (fuel + 1) iterated idx b
      = iterate_double_crossers tm ci cs fuel (iterated >>> 1) (idx + 1) b := by
  conv_lhs => unfold iterate_double_crossers
  rw [if_neg h0, if_pos h1]

theorem iterate_double_succ_hit (tm : List time_to_cross_type) (ci : Nat)
    (cs : bridge_state_type) (fuel iterated idx : Nat) (b : builder_state)
    (h0 : iterated ≠ 0) (h1 : ¬(iterated &&& 1 = 0)) :
    iterate_double_crossers tm ci cs (fuel + 1) iterated idx b
      = match iterate_second_crossers tm ci cs idx fuel (iterated >>> 1) (idx + 1) b with
        | .error e => .error e
        | .ok b1 =>
            iterate_double_crossers tm ci cs fuel (iterated >>> 1) (idx + 1) b1 := by
  conv_lhs => unfold iterate_double_crossers
  rw [if_neg h0, if_neg h1]

/-! ### Invariant preservation through the scan loops -/

theorem iterate_single_crossers_inv (tm : List time_to_cross_type) (ci : Nat)
    (cs : bridge_state_type) (hcs : cs.state_repr < 2 ^ int_value_type_bit_count) :
    ∀ (fuel iterated idx : Nat) (b b' : builder_state),
      builder_inv b → ci < b.states.length →
      iterate_single_crossers tm ci cs fuel iterated idx b = .ok b' →
      builder_inv b' ∧ b.states.length ≤ b'.states.length := by
  intro fuel
  induction fuel with
  | zero =>
      intro iterated idx b b' hinv hci h
      by_cases h0 : iterated = 0
      · subst h0
        rw [iterate_single_zero] at h
        injection h with h
        subst h
        exact ⟨hinv, le_refl _⟩
      · unfold iterate_single_crossers at h
        rw [if_neg h0] at h
        simp at h
  | succ fuel ih =>
      intro iterated idx b b' hinv hci h
      by_cases h0 : iterated = 0
      · subst h0
        rw [iterate_single_zero] at h
        injection h with h
        subst h
        exact ⟨hinv, le_refl _⟩
      · by_cases h1 : iterated &&& 1 = 0
        · rw [iterate_single_succ_skip tm ci cs fuel iterated idx b h0 h1] at h
          exact ih _ _ _ _ hinv hci h
        · rw [iterate_single_succ_hit tm ci cs fuel iterated idx b h0 h1] at h
          cases hsc : bridge_state_type.after_single_crossing cs idx with
          | error e => rw [hsc] at h; simp at h
          | ok crossed =>
              rw [hsc] at h
              cases hv : vector_at tm idx with
              | error e => rw [hv] at h; simp at h
              | ok t =>
                  rw [hv] at h
                  obtain ⟨hcl, hce⟩ := after_single_ok_lt hcs hsc
                  obtain ⟨hinv1, hlen1⟩ :=
                    try_add_builder_inv (t := t) hinv hci hcl hce
                  have hci1 : ci
                      < (try_add_or_connect_crossed_state b ci crossed t).states.length :=
                    lt_of_lt_of_le hci hlen1
                  obtain ⟨hinv2, hlen2⟩ := ih _ _ _ _ hinv1 hci1 h
                  exact ⟨hinv2, le_trans hlen1 hlen2⟩

theorem iterate_second_crossers_inv (tm : List time_to_cross_type) (ci : Nat)
    (cs : bridge_state_type) (fc : Nat)
    (hcs : cs.state_repr < 2 ^ int_value_type_bit_count) :
    ∀ (fuel iterated idx : Nat) (b b' : builder_state),
      builder_inv b → ci < b.states.length →
      iterate_second_crossers tm ci cs fc fuel iterated idx b = .ok b' →
      builder_inv b' ∧ b.states.length ≤ b'.states.length := by
  intro fuel
  induction fuel with
  | zero =>
      intro iterated idx b b' hinv hci h
      by_cases h0 : iterated = 0
      · subst h0
        rw [iterate_second_zero] at h
        injection h with h
        subst h
        exact ⟨hinv, le_refl _⟩
      · unfold iterate_second_crossers at h
        rw [if_neg h0] at h
        simp at h
  | succ fuel ih =>
      intro iterated idx b b' hinv hci h
      by_cases h0 : iterated = 0
      · subst h0
        rw [iterate_second_zero] at h
        injection h with h
        subst h
        exact ⟨hinv, le_refl _⟩
      · by_cases h1 : iterated &&& 1 = 0
        · rw [iterate_second_succ_skip tm ci cs fc fuel iterated idx b h0 h1] at h
          exact ih _ _ _ _ hinv hci h
        · rw [iterate_second_succ_hit tm ci cs fc fuel iterated idx b h0 h1] at h
          cases hsc : bridge_state_type.after_double_crossing cs fc idx with
          | error e => rw [hsc] at h; simp at h
          | ok crossed =>
              rw [hsc] at h
              cases hv1 : vector_at tm fc with
              | error e => rw [hv1] at h; simp at h
              | ok t1 =>
                  rw [hv1] at h
                  cases hv2 : vector_at tm idx with
                  | error e => rw [hv2] at h; simp at h
                  | ok t2 =>
                      rw [hv2] at h
                      obtain ⟨hcl, hce⟩ := after_double_ok_lt hcs hsc
                      obtain ⟨hinv1, hlen1⟩ :=
                        try_add_builder_inv (t := max t1 t2) hinv hci hcl hce
                      have hci1 : ci < (try_add_or_connect_crossed_state b ci crossed
                          (max t1 t2)).states.length :=
                        lt_of_lt_of_le hci hlen1
                      obtain ⟨hinv2, hlen2⟩ := ih _ _ _ _ hinv1 hci1 h
                      exact ⟨hinv2, le_trans hlen1 hlen2⟩

theorem iterate_double_crossers_inv (tm : List time_to_cross_type) (ci : Nat)
    (cs : bridge_state_type) (hcs : cs.state_repr < 2 ^ int_value_type_bit_count) :
    ∀ (fuel iterated idx : Nat) (b b' : builder_state),
      builder_inv b → ci < b.states.length →
      iterate_double_crossers tm ci cs fuel iterated idx b = .ok b' →
      builder_inv b' ∧ b.states.length ≤ b'.states.length := by
  intro fuel
  induction fuel with
  | zero =>
      intro iterated idx b b' hinv hci h
      by_cases h0 : iterated = 0
      · subst h0
        rw [iterate_double_zero] at h
        injection h with h
        subst h
        exact ⟨hinv, le_refl _⟩
      · unfold iterate_double_crossers at h
        rw [if_neg h0] at h
        simp at h
  | succ fuel ih =>
      intro iterated idx b b' hinv hci h
      by_cases h0 : iterated = 0
      · subst h0
        rw [iterate_double_zero] at h
        injection h with h
        subst h
        exact ⟨hinv, le_refl _⟩
      · by_cases h1 : iterated &&& 1 = 0
        · rw [iterate_double_succ_skip tm ci cs fuel iterated idx b h0 h1] at h
          exact ih _ _ _ _ hinv hci h
        · rw [iterate_double_succ_hit tm ci cs fuel iterated idx b h0 h1] at h
          cases hsec : iterate_second_crossers tm ci cs idx fuel (iterated >>> 1)
              (idx + 1) b with
          | error e => rw [hsec] at h; simp at h
          | ok b1 =>
              rw [hsec] at h
              obtain ⟨hinv1, hlen1⟩ :=
                iterate_second_crossers_inv tm ci cs idx hcs _ _ _ _ _ hinv hci hsec
              have hci1 : ci < b1.states.length := lt_of_lt_of_le hci hlen1
              obtain ⟨hinv2, hlen2⟩ := ih _ _ _ _ hinv1 hci1 h
              exact ⟨hinv2, le_trans hlen1 hlen2⟩

/-! ### The scan loops cannot exhaust their fuel -/

theorem iterate_single_crossers_no_fuel (tm : List time_to_cross_type) (ci : Nat)
    (cs : bridge_state_type) :
    ∀ (fuel iterated idx : Nat) (b : builder_state), iterated < 2 ^ fuel →
      iterate_single_crossers tm ci cs fuel iterated idx b ≠ .error .OutOfFuel := by
  intro fuel
  induction fuel with
  | zero =>
      intro iterated idx b hit
      have h0 : iterated = 0 := by
        have h1 : iterated < 1 := by simpa using hit
        omega
      subst h0
      rw [iterate_single_zero]
      simp
  | succ fuel ih =>
      intro iterated idx b hit
      by_cases h0 : iterated = 0
      · subst h0
        rw [iterate_single_zero]
        simp
      · have hit' : iterated >>> 1 < 2 ^ fuel := by
          rw [Nat.shiftRight_one]
          rw [pow_succ] at hit
          omega
        by_cases h1 : iterated &&& 1 = 0
        · rw [iterate_single_succ_skip tm ci cs fuel iterated idx b h0 h1]
          exact ih _ _ _ hit'
        · rw [iterate_single_succ_hit tm ci cs fuel iterated idx b h0 h1]
          cases hsc : bridge_state_type.after_single_crossing cs idx with
          | error e =>
              have he := after_single_error_kind hsc
              subst he
              simp
          | ok crossed =>
              cases hv : vector_at tm idx with
              | error e =>
                  have he := vector_at_error_kind hv
                  subst he
                  simp
              | ok t => exact ih _ _ _ hit'

theorem iterate_second_crossers_no_fuel (tm : List time_to_cross_type) (ci : Nat)
    (cs : bridge_state_type) (fc : Nat) :
    ∀ (fuel iterated idx : Nat) (b : builder_state), iterated < 2 ^ fuel →
      iterate_second_crossers tm ci cs fc fuel iterated idx b ≠ .error .OutOfFuel := by
  intro fuel
  induction fuel with
  | zero =>
      intro iterated idx b hit
      have h0 : iterated = 0 := by
        have h1 : iterated < 1 := by simpa using hit
        omega
      subst h0
      rw [iterate_second_zero]
      simp
  | succ fuel ih =>
      intro iterated idx b hit
      by_cases h0 : iterated = 0
      · subst h0
        rw [iterate_second_zero]
        simp
      · have hit' : iterated >>> 1 < 2 ^ fuel := by
          rw [Nat.shiftRight_one]
          rw [pow_succ] at hit
          omega
        by_cases h1 : iterated &&& 1 = 0
        · rw [iterate_second_succ_skip tm ci cs fc fuel iterated idx b h0 h1]
          exact ih _ _ _ hit'
        · rw [iterate_second_succ_hit tm ci cs fc fuel iterated idx b h0 h1]
          cases hsc : bridge_state_type.after_double_crossing cs fc idx with
          | error e =>
              rcases after_double_error_kind hsc with he | he <;> subst he <;> simp
          | ok crossed =>
              cases hv1 : vector_at tm fc with
              | error e =>
                  have he := vector_at_error_kind hv1
                  subst he
                  simp
              | ok t1 =>
                  cases hv2 : vector_at tm idx with
                  | error e =>
                      have he := vector_at_error_kind hv2
                      subst he
                      simp
                  | ok t2 => exact ih _ _ _ hit'

theorem iterate_double_crossers_no_fuel (tm : List time_to_cross_type) (ci : Nat)
    (cs : bridge_state_type) :
    ∀ (fuel iterated idx : Nat) (b : builder_state), iterated < 2 ^ fuel →
      iterate_double_crossers tm ci cs fuel iterated idx b ≠ .error .OutOfFuel := by
  intro fuel
  induction fuel with
  | zero =>
      intro iterated idx b hit
      have h0 : iterated = 0 := by
        have h1 : iterated < 1 := by simpa using hit
        omega
      subst h0
      rw [iterate_double_zero]
      simp
  | succ fuel ih =>
      intro iterated idx b hit
      by_cases h0 : iterated = 0
      · subst h0
        rw [iterate_double_zero]
        simp
      · have hit' : iterated >>> 1 < 2 ^ fuel := by
          rw [Nat.shiftRight_one]
          rw [pow_succ] at hit
          omega
        by_cases h1 : iterated &&& 1 = 0
        · rw [iterate_double_succ_skip tm ci cs fuel iterated idx b h0 h1]
          exact ih _ _ _ hit'
        · rw [iterate_double_succ_hit tm ci cs fuel iterated idx b h0 h1]
          cases hsec : iterate_second_crossers tm ci cs idx fuel (iterated >>> 1)
              (idx + 1) b with
          | error e =>
              have hne := iterate_second_crossers_no_fuel tm ci cs idx fuel
                (iterated >>> 1) (idx + 1) b hit'
              rw [hsec] at hne
              intro hcon
              exact hne hcon
          | ok b1 => exact ih _ _ _ hit'

/-! ### The worklist loop -/

theorem build_loop_zero (tm : List time_to_cross_type) (curr : Nat) (b : builder_state) :
    build_loop tm 0 curr b
      = if curr < b.states.length then .error .OutOfFuel else .ok b := rfl

theorem build_loop_succ_none (tm : List time_to_cross_type) (fuel curr : Nat)
    (b : builder_state) (h : b.states.get? curr = none) :
    build_loop tm (fuel + 1) curr b = .ok b := by
  conv_lhs => unfold build_loop
  rw [h]

theorem build_loop_succ_some (tm : List time_to_cross_type) (fuel curr : Nat)
    (b : builder_state) (copy : bridge_state_type)
    (h : b.states.get? curr = some copy) :
    build_loop tm (fuel + 1) curr b
      = match iterate_single_crossers tm curr copy int_value_type_bit_count
            (bridge_state_type.get_possible_crosser_indices copy) 0 b with
        | .error e => .error e
        | .ok b1 =>
            match iterate_double_crossers tm curr copy int_value_type_bit_count
                (bridge_state_type.get_possible_crosser_indices copy) 0 b1 with
            | .error e => .error e
            | .ok b2 => build_loop tm fuel (curr + 1) b2 := by
  conv_lhs => unfold build_loop
  rw [h]

theorem build_loop_inv (tm : List time_to_cross_type) :
    ∀ (fuel curr : Nat) (b b' : builder_state), builder_inv b →
      build_loop tm fuel curr b = .ok b' → builder_inv b' := by
  intro fuel
  induction fuel with
  | zero =>
      intro curr b b' hinv h
      rw [build_loop_zero] at h
      by_cases hc : curr < b.states.length
      · rw [if_pos hc] at h
        simp at h
      · rw [if_neg hc] at h
        injection h with h
        subst h
        exact hinv
  | succ fuel ih =>
      intro curr b b' hinv h
      cases hget : b.states.get? curr with
      | none =>
          rw [build_loop_succ_none tm fuel curr b hget] at h
          injection h with h
          subst h
          exact hinv
      | some copy =>
          rw [build_loop_succ_some tm fuel curr b copy hget] at h
          have hcurr : curr < b.states.length := by
            rcases List.get?_eq_some.mp hget with ⟨hlt, _⟩
            exact hlt
          have hmem : copy ∈ b.states := List.get?_mem hget
          have hcl : copy.state_repr < 2 ^ int_value_type_bit_count :=
            hinv.1 _ (List.mem_map_of_mem bridge_state_type.state_repr hmem)
          cases hs1 : iterate_single_crossers tm curr copy int_value_type_bit_count
              (bridge_state_type.get_possible_crosser_indices copy) 0 b with
          | error e => rw [hs1] at h; simp at h
          | ok b1 =>
              rw [hs1] at h
              obtain ⟨hinv1, hlen1⟩ :=
                iterate_single_crossers_inv tm curr copy hcl _ _ _ _ _ hinv hcurr hs1
              have hcurr1 : curr < b1.states.length := lt_of_lt_of_le hcurr hlen1
              have h' : (match iterate_double_crossers tm curr copy
                    int_value_type_bit_count
                    (bridge_state_type.get_possible_crosser_indices copy) 0 b1 with
                  | .error e => (.error e : Except error_kind builder_state)
                  | .ok b2 => build_loop tm fuel (curr + 1) b2) = .ok b' := h
              cases hs2 : iterate_double_crossers tm curr copy int_value_type_bit_count
                  (bridge_state_type.get_possible_crosser_indices copy) 0 b1 with
              | error e => rw [hs2] at h'; simp at h'
              | ok b2 =>
                  rw [hs2] at h'
                  obtain ⟨hinv2, _⟩ :=
                    iterate_double_crossers_inv tm curr copy hcl _ _ _ _ _ hinv1 hcurr1 hs2
                  exact ih _ _ _ hinv2 h'

theorem build_loop_no_fuel (tm : List time_to_cross_type) :
    ∀ (fuel curr : Nat) (b : builder_state), builder_inv b →
      2 ^ int_value_type_bit_count < fuel + curr →
      build_loop tm fuel curr b ≠ .error .OutOfFuel := by
  intro fuel
  induction fuel with
  | zero =>
      intro curr b hinv hfc
      rw [build_loop_zero]
      have hlen : b.states.length ≤ 2 ^ int_value_type_bit_count := by
        have h1 : (reprs b).Nodup := hinv.2.1
        have h2 : ∀ x ∈ reprs b, x < 2 ^ int_value_type_bit_count := hinv.1
        have h3 := nodup_lt_length_le h1 h2
        have h4 : (reprs b).length = b.states.length := by
          simp [reprs]
        omega
      rw [if_neg (by omega)]
      simp
  | succ fuel ih =>
      intro curr b hinv hfc
      cases hget : b.states.get? curr with
      | none =>
          rw [build_loop_succ_none tm fuel curr b hget]
          simp
      | some copy =>
          rw [build_loop_succ_some tm fuel curr b copy hget]
          have hcurr : curr < b.states.length := by
            rcases List.get?_eq_some.mp hget with ⟨hlt, _⟩
            exact hlt
          have hmem : copy ∈ b.states := List.get?_mem hget
          have hcl : copy.state_repr < 2 ^ int_value_type_bit_count :=
            hinv.1 _ (List.mem_map_of_mem bridge_state_type.state_repr hmem)
          have hmask : bridge_state_type.get_possible_crosser_indices copy
              < 2 ^ int_value_type_bit_count := gpci_lt_word hcl
          cases hs1 : iterate_single_crossers tm curr copy int_value_type_bit_count
              (bridge_state_type.get_possible_crosser_indices copy) 0 b with
          | error e =>
              have hne := iterate_single_crossers_no_fuel tm curr copy
                int_value_type_bit_count
                (bridge_state_type.get_possible_crosser_indices copy) 0 b hmask
              rw [hs1] at hne
              intro hcon
              exact hne hcon
          | ok b1 =>
              obtain ⟨hinv1, hlen1⟩ :=
                iterate_single_crossers_inv tm curr copy hcl _ _ _ _ _ hinv hcurr hs1
              have hcurr1 : curr < b1.states.length := lt_of_lt_of_le hcurr hlen1
              show (match iterate_double_crossers tm curr copy int_value_type_bit_count
                    (bridge_state_type.get_possible_crosser_indices copy) 0 b1 with
                  | .error e => (.error e : Except error_kind builder_state)
                  | .ok b2 => build_loop tm fuel (curr + 1) b2) ≠ .error .OutOfFuel
              have hne := iterate_double_crossers_no_fuel tm curr copy
                int_value_type_bit_count
                (bridge_state_type.get_possible_crosser_indices copy) 0 b1 hmask
              cases hs2 : iterate_double_crossers tm curr copy int_value_type_bit_count
                  (bridge_state_type.get_possible_crosser_indices copy) 0 b1 with
              | error e =>
                  rw [hs2] at hne
                  exact hne
              | ok b2 =>
                  obtain ⟨hinv2, _⟩ :=
                    iterate_double_crossers_inv tm curr copy hcl _ _ _ _ _ hinv1 hcurr1 hs2
                  exact ih (curr + 1) b2 hinv2 (by omega)

/-! ### The whole construction -/

theorem start_repr_ne_end_repr {n : Nat} (h1 : min_people ≤ n) :
    2 ^ (n + 1) ≠ 2 ^ (n + 2) - 1 := by
  have heq2 : (2 : Nat) ^ (n + 2) = 2 * 2 ^ (n + 1) := by ring
  have h1n : 1 ≤ n := by rw [min_people_eq] at h1; exact h1
  have h2pow : (2 : Nat) ≤ 2 ^ (n + 1) := by
    calc (2 : Nat) = 2 ^ 1 := by norm_num
      _ ≤ 2 ^ (n + 1) := Nat.pow_le_pow_right (by omega) (by omega)
  omega

theorem build_eq (tm : List time_to_cross_type) :
    build tm
      = match bridge_state_type.start tm.length with
        | .error e => .error e
        | .ok start_state =>
            match bridge_state_type.end_state tm.length with
            | .error e => .error e
            | .ok end_state =>
                build_loop tm (2 ^ int_value_type_bit_count + 1) 0
                  { states := [start_state, end_state],
                    state_to_states_index :=
                      insert_or_assign (insert_or_assign [] start_state.state_repr 0)
                        end_state.state_repr 1,
                    connection_count := 0 } := by
  unfold build
  cases bridge_state_type.start tm.length with
  | error e => rfl
  | ok s =>
      cases bridge_state_type.end_state tm.length with
      | error e => rfl
      | ok e => rfl

theorem two_state_inv {r1 r2 : Nat} (h1 : r1 < 2 ^ int_value_type_bit_count)
    (h2 : r2 < 2 ^ int_value_type_bit_count) (hne : r1 ≠ r2) :
    builder_inv
      { states := [⟨r1, []⟩, ⟨r2, []⟩],
        state_to_states_index := insert_or_assign (insert_or_assign [] r1 0) r2 1,
        connection_count := 0 } := by
  refine ⟨?_, ?_, ?_, ?_⟩
  · intro r hr
    simp only [reprs, List.map_cons, List.map_nil] at hr
    rcases List.mem_cons.mp hr with h | h
    · rw [h]; exact h1
    · rcases List.mem_cons.mp h with h' | h'
      · rw [h']; exact h2
      · simp at h'
  · simp only [reprs, List.map_cons, List.map_nil]
    simp [hne]
  · intro r hr
    simp only [reprs, List.map_cons, List.map_nil] at hr
    show (map_find (insert_or_assign (insert_or_assign [] r1 0) r2 1) r).isSome = true
    rw [map_find_insert_or_assign]
    by_cases hre : r = r2
    · rw [if_pos hre]; rfl
    · rw [if_neg hre]
      rw [map_find_insert_or_assign]
      by_cases hrs : r = r1
      · rw [if_pos hrs]; rfl
      · rcases List.mem_cons.mp hr with h | h
        · exact absurd h hrs
        · rcases List.mem_cons.mp h with h' | h'
          · exact absurd h' hre
          · simp at h'
  · intro k st hget c hc
    cases k with
    | zero =>
        simp only [List.get?_cons_zero] at hget
        injection hget with hget
        subst hget
        simp at hc
    | succ k =>
        cases k with
        | zero =>
            simp only [List.get?_cons_succ, List.get?_cons_zero] at hget
            injection hget with hget
            subst hget
            simp at hc
        | succ k =>
            simp at hget

theorem build_initial_inv {n : Nat} {s e : bridge_state_type}
    (hs : bridge_state_type.start n = .ok s)
    (he : bridge_state_type.end_state n = .ok e) :
    builder_inv
      { states := [s, e],
        state_to_states_index :=
          insert_or_assign (insert_or_assign [] s.state_repr 0) e.state_repr 1,
        connection_count := 0 } := by
  obtain ⟨h1s, h2s, hseq⟩ := start_ok_inv hs
  obtain ⟨h1e, h2e, hcase⟩ := end_state_ok_inv he
  subst hseq
  have hb : n ≤ 30 := by rw [max_people_eq] at h2s; exact h2s
  have hlt1 : 2 ^ (n + 1) < 2 ^ int_value_type_bit_count := by
    rw [int_value_type_bit_count_eq]
    exact Nat.pow_lt_pow_right (by omega) (by omega)
  have hpos : (0 : Nat) < 2 ^ (n + 1) := Nat.pos_pow_of_pos (n + 1) (by omega)
  rcases hcase with ⟨hblt, heeq⟩ | ⟨hbeq, heeq⟩ <;> subst heeq
  · have hlt2 : 2 ^ (n + 2) - 1 < 2 ^ int_value_type_bit_count := by
      rw [int_value_type_bit_count_eq]
      have hle : (2 : Nat) ^ (n + 2) ≤ 2 ^ 32 :=
        Nat.pow_le_pow_right (by omega) (by omega)
      omega
    exact two_state_inv hlt1 hlt2 (start_repr_ne_end_repr h1s)
  · exact two_state_inv hlt1 (by rw [int_value_type_bit_count_eq]; omega) (by omega)

theorem build_ok_inv {tm : List time_to_cross_type} {b : builder_state}
    (h : build tm = .ok b) : builder_inv b := by
  rw [build_eq] at h
  cases hs : bridge_state_type.start tm.length with
  | error e => rw [hs] at h; simp at h
  | ok s =>
      rw [hs] at h
      cases he : bridge_state_type.end_state tm.length with
      | error e => rw [he] at h; simp at h
      | ok ee =>
          rw [he] at h
          exact build_loop_inv tm _ _ _ _ (build_initial_inv hs he) h

theorem build_not_out_of_fuel (tm : List time_to_cross_type) :
    build tm ≠ .error .OutOfFuel := by
  rw [build_eq]
  cases hs : bridge_state_type.start tm.length with
  | error e =>
      have hk := start_error_kind hs
      subst hk
      simp
  | ok s =>
      cases he : bridge_state_type.end_state tm.length with
      | error e =>
          have hk := end_state_error_kind he
          subst hk
          simp
      | ok ee =>
          exact build_loop_no_fuel tm _ _ _ (build_initial_inv hs he) (by omega)

/-! ### Claim theorems -/

/-- C1 (counterexample): for the example input `[1, 10, 100, 1000]` the
construction of `main` does **not** terminate with 16 nodes — evaluating
the builder shows the node count is not 16. -/
theorem C1_counterexample :
    main_build.map (fun b => decide (b.states.length = 16)) = Except.ok false := by
  decide

/-- C1 (amended): for the example input `[1, 10, 100, 1000]`
(`person_count = 4`), the graph construction in `main` terminates with a
node list containing exactly 30 nodes — `2 ^ (4 + 1) - 2`, matching the
source docstring's graph, which lists 30 distinct configurations — all of
distinct configurations, with the start configuration at index 0 and the
end configuration at index 1. -/
theorem C1_node_count :
    main_build.map (fun b => b.states.length) = Except.ok 30
      ∧ main_build.map (fun b =>
          decide ((b.states.map bridge_state_type.state_repr).Nodup)) = Except.ok true
      ∧ main_build.map (fun b =>
          (b.states.map bridge_state_type.state_repr).take 2)
          = Except.ok [2 ^ 5, 2 ^ 6 - 1]
      ∧ (bridge_state_type.start 4).map bridge_state_type.state_repr
          = Except.ok (2 ^ 5)
      ∧ (bridge_state_type.end_state 4).map bridge_state_type.state_repr
          = Except.ok (2 ^ 6 - 1) := by
  refine ⟨?_, ?_, ?_, ?_, ?_⟩ <;> decide

/-- C2: in the graph `main` builds, every directed edge record appears
exactly once per ordered node pair, and for every record `(u, v, cost)`
there is exactly one matching record `(v, u, cost)` with the identical
cost. -/
theorem C2_edge_reciprocity :
    main_build.map (fun b =>
        (edge_records b).all fun p =>
          ((edge_records b).filter fun q =>
              q.1 == p.1 && q.2.1 == p.2.1).length == 1
            && ((edge_records b).filter fun q =>
                q.1 == p.2.1 && q.2.1 == p.1 && q.2.2 == p.2.2).length == 1)
      = Except.ok true := by
  decide

/-- C3 (counterexample): at `N = max_people = 30` the claimed mask of the
end configuration fails — `end 30` evaluates a shift by the full word
width, undefined in ISO C++; the realized masked shift produces the
configuration `0`, whose eligibility mask is empty rather than a value
with 30 bits set. -/
theorem C3_counterexample :
    bridge_state_type.end_state 30 = .ok ⟨0, []⟩
      ∧ bridge_state_type.get_possible_crosser_indices ⟨0, []⟩ = 0
      ∧ decide ((0 : Nat) = 2 ^ 30 - 1) = false := by
  refine ⟨?_, ?_, ?_⟩ <;> decide

/-- C3 (amended): for every valid configuration with `n` people,
`get_possible_crosser_indices` sets bit `i` exactly when `i` names a
person (`i < n`) standing on the bank that currently holds the torch
(person bit `i + 1` agrees with the torch bit); on `start n` for every `n`
in `[min_people, max_people]`, and on `end n` for every `n` in
`[min_people, max_people - 1]`, the mask is `2 ^ n - 1`, which has exactly
`n` bits set.  At `n = max_people`, `end`'s shift is by the full word
width — undefined in ISO C++ — and its realized value `0` has an empty
mask. -/
theorem C3_possible_crossers (n : Nat) (h1 : min_people ≤ n) (h2 : n ≤ max_people) :
    (∀ st : bridge_state_type, has_people st.state_repr n →
        ∀ i, (bridge_state_type.get_possible_crosser_indices st).testBit i
          = (decide (i < n) && (st.state_repr.testBit (i + 1) == st.state_repr.testBit 0)))
      ∧ (∀ st, bridge_state_type.start n = .ok st →
          bridge_state_type.get_possible_crosser_indices st = 2 ^ n - 1)
      ∧ (n < max_people → ∀ st, bridge_state_type.end_state n = .ok st →
          bridge_state_type.get_possible_crosser_indices st = 2 ^ n - 1) := by
  refine ⟨?_, ?_, ?_⟩
  · intro st hp i
    exact gpci_testBit h2 hp i
  · intro st hst
    obtain ⟨_, _, heq⟩ := start_ok_inv hst
    subst heq
    exact gpci_start h1 h2
  · intro hlt st hst
    rw [end_state_eq h1 hlt] at hst
    have heq := (Except.ok.inj hst).symm
    subst heq
    exact gpci_end h1 h2

/-- Witness for C3 at `n = 2`: the eligibility masks of the start and end
configurations both have exactly two bits set. -/
theorem C3_witness :
    (min_people ≤ 2 ∧ 2 ≤ max_people ∧ 2 < max_people)
      ∧ bridge_state_type.get_possible_crosser_indices ⟨2 ^ 3, []⟩ = 2 ^ 2 - 1
      ∧ bridge_state_type.get_possible_crosser_indices ⟨2 ^ 4 - 1, []⟩ = 2 ^ 2 - 1 :=
  ⟨by decide,
    (C3_possible_crossers 2 (by decide) (by decide)).2.1 ⟨2 ^ 3, []⟩ (by decide),
    (C3_possible_crossers 2 (by decide) (by decide)).2.2 (by decide) ⟨2 ^ 4 - 1, []⟩
      (by decide)⟩

/-- C4 (counterexample): at the boundary `person_count = max_people = 30`
the claimed shape of `end` fails — the shift amount equals the word width,
which ISO C++ leaves undefined, and the realized masked shift gives the
configuration `0`: not the all-ones word, and with no sentinel at position
31. -/
theorem C4_counterexample :
    bridge_state_type.end_state 30 = .ok ⟨0, []⟩
      ∧ (0 : Nat).testBit 31 = false
      ∧ bridge_state_type.get_leading_one_pos 0 = 0
      ∧ decide ((0 : Nat) = 2 ^ 32 - 1) = false := by
  refine ⟨?_, ?_, ?_, ?_⟩ <;> decide

/-- C4 (amended): for every `person_count` in `[min_people, max_people]`,
`start` returns the configuration with sentinel (highest set bit) at
position `person_count + 1` and all person bits and the torch bit 0; for
every `person_count` in `[min_people, max_people - 1]`, `end` returns the
distinct configuration with sentinel at position `person_count + 1` and
all person bits and the torch bit 1.  At the boundary
`person_count = max_people = 30`, `end`'s shift amount equals the word
width — undefined in ISO C++ — and the realized masked shift returns the
configuration `0`, which has no sentinel. -/
theorem C4_start_end_shape (n : Nat) (h1 : min_people ≤ n) (h2 : n ≤ max_people) :
    bridge_state_type.start n = .ok ⟨2 ^ (n + 1), []⟩
      ∧ bridge_state_type.get_leading_one_pos (2 ^ (n + 1)) = n + 1
      ∧ (2 ^ (n + 1)).testBit 0 = false
      ∧ (∀ i, i < n → (2 ^ (n + 1)).testBit (i + 1) = false)
      ∧ (n < max_people →
          bridge_state_type.end_state n = .ok ⟨2 ^ (n + 2) - 1, []⟩
            ∧ 2 ^ (n + 1) ≠ 2 ^ (n + 2) - 1
            ∧ bridge_state_type.get_leading_one_pos (2 ^ (n + 2) - 1) = n + 1
            ∧ (2 ^ (n + 2) - 1).testBit 0 = true
            ∧ (∀ i, i < n → (2 ^ (n + 2) - 1).testBit (i + 1) = true))
      ∧ (n = max_people → bridge_state_type.end_state n = .ok ⟨0, []⟩) := by
  have hb : n ≤ 30 := by rw [max_people_eq] at h2; exact h2
  have heq2 : (2 : Nat) ^ (n + 2) = 2 * 2 ^ (n + 1) := by ring
  have hpos1 : (0 : Nat) < 2 ^ (n + 1) := by positivity
  have hpos2 : (0 : Nat) < 2 ^ (n + 2) := by positivity
  refine ⟨start_eq h1 h2, ?_, ?_, ?_, ?_, ?_⟩
  · exact get_leading_one_pos_eq (by omega) (le_refl _)
      (Nat.pow_lt_pow_right (by omega) (by omega))
  · exact @two_pow_testBit_ne (n + 1) 0 (by omega)
  · intro i hi
    exact @two_pow_testBit_ne (n + 1) (i + 1) (by omega)
  · intro hlt
    refine ⟨end_state_eq h1 hlt, start_repr_ne_end_repr h1, ?_, ?_, ?_⟩
    · exact get_leading_one_pos_eq (by omega) (by omega) (by omega)
    · rw [Nat.testBit_two_pow_sub_one]
      simp only [decide_eq_true_eq]
      omega
    · intro i hi
      rw [Nat.testBit_two_pow_sub_one]
      simp only [decide_eq_true_eq]
      omega
  · intro hq
    rw [hq]
    exact end_state_boundary

/-- Witness for C4 at `person_count = 29`, the largest count below the
boundary, and at the boundary `person_count = max_people = 30`, where the
realized value of `end` is the zero configuration. -/
theorem C4_witness :
    ((min_people ≤ 29 ∧ 29 ≤ max_people) ∧ 29 < max_people
        ∧ (min_people ≤ 30 ∧ 30 ≤ max_people) ∧ 30 = max_people)
      ∧ bridge_state_type.start 29 = .ok ⟨2 ^ 30, []⟩
      ∧ bridge_state_type.end_state 29 = .ok ⟨2 ^ 31 - 1, []⟩
      ∧ bridge_state_type.get_leading_one_pos (2 ^ 31 - 1) = 30
      ∧ bridge_state_type.end_state 30 = .ok ⟨0, []⟩ :=
  ⟨by decide,
    (C4_start_end_shape 29 (by decide) (by decide)).1,
    ((C4_start_end_shape 29 (by decide) (by decide)).2.2.2.2.1 (by decide)).1,
    ((C4_start_end_shape 29 (by decide) (by decide)).2.2.2.2.1 (by decide)).2.2.1,
    (C4_start_end_shape 30 (by decide) (by decide)).2.2.2.2.2 (by decide)⟩

set_option maxRecDepth 8192 in
/-- C5: in the graph `main` builds, every recorded edge carries the
documented cost: its endpoints are related by a single crossing of some
person `i` with cost `times_to_cross.at(i)`, or by a double crossing of
persons `i < j` with cost `max(times_to_cross.at(i), times_to_cross.at(j))`. -/
theorem C5_edge_costs :
    main_build.map (fun b => decide (∀ p ∈ edge_records b,
        (∃ i ∈ List.range times_to_cross_main.length,
            (bridge_state_type.after_single_crossing ⟨repr_at b p.1, []⟩ i).map
                bridge_state_type.state_repr = .ok (repr_at b p.2.1)
              ∧ vector_at times_to_cross_main i = .ok p.2.2)
          ∨ (∃ i ∈ List.range times_to_cross_main.length,
              ∃ j ∈ List.range times_to_cross_main.length, i < j
                ∧ (bridge_state_type.after_double_crossing ⟨repr_at b p.1, []⟩ i j).map
                    bridge_state_type.state_repr = .ok (repr_at b p.2.1)
                ∧ (vector_at times_to_cross_main i).bind (fun t1 =>
                    (vector_at times_to_cross_main j).map fun t2 => max t1 t2)
                  = Except.ok p.2.2)))
      = Except.ok true := by
  decide

/-- C6: for every times vector, the constructed graph contains no
self-loop — no node's crossing list contains an entry whose target index
is the node's own index. -/
theorem C6_no_self_loop (tm : List time_to_cross_type) (b : builder_state)
    (h : build tm = .ok b) : no_self_loop b.states :=
  (build_ok_inv h).2.2.2

/-- Witness for C6: the graph built for the one-person input `[1]`. -/
theorem C6_witness :
    no_self_loop [⟨4, [⟨1, 1⟩]⟩, ⟨7, [⟨0, 1⟩]⟩] :=
  C6_no_self_loop [1]
    ⟨[⟨4, [⟨1, 1⟩]⟩, ⟨7, [⟨0, 1⟩]⟩], [(4, 0), (7, 1)], 1⟩ (by decide)

/-- C7: on a valid configuration with `n` people (sentinel at `n + 1`),
`after_double_crossing` fails exactly when the two indices are equal or
either index is at least `sentinel_position - 1 = n`; otherwise it returns
the configuration with the torch bit and exactly the two person bits
flipped. -/
theorem C7_after_double_validation (s n i j : Nat) (hn : n ≤ max_people)
    (hs : has_people s n) :
    bridge_state_type.get_leading_one_pos s = n + 1
      ∧ ((∃ r, bridge_state_type.after_double_crossing ⟨s, []⟩ i j = .ok r)
          ↔ ¬(i = j ∨ n ≤ i ∨ n ≤ j))
      ∧ (i ≠ j → i < n → j < n →
          bridge_state_type.after_double_crossing ⟨s, []⟩ i j
            = .ok ⟨s ^^^ torch_bit ^^^ 2 ^ (i + 1) ^^^ 2 ^ (j + 1), []⟩) := by
  have hb : n ≤ 30 := by rw [max_people_eq] at hn; exact hn
  have hpos : bridge_state_type.get_leading_one_pos s = n + 1 := has_people_pos hn hs
  have hpos' : bridge_state_type.get_leading_one_pos
      ((⟨s, []⟩ : bridge_state_type).state_repr) = n + 1 := hpos
  refine ⟨hpos, ?_, ?_⟩
  · constructor
    · rintro ⟨r, hr⟩
      obtain ⟨hi, hj, hij, _⟩ := after_double_ok_inv hr
      rw [hpos'] at hi hj
      push_neg
      exact ⟨hij, by omega, by omega⟩
    · intro hcon
      push_neg at hcon
      obtain ⟨hij, hi, hj⟩ := hcon
      exact ⟨_, after_double_eq_ok (by rw [hpos']; omega) (by rw [hpos']; omega) hij⟩
  · intro hij hi hj
    have hmi : ((1 : Nat) <<< (i + 1)) % 2 ^ int_value_type_bit_count = 2 ^ (i + 1) := by
      rw [int_value_type_bit_count_eq]
      exact shift_one_mod (by omega)
    have hmj : ((1 : Nat) <<< (j + 1)) % 2 ^ int_value_type_bit_count = 2 ^ (j + 1) := by
      rw [int_value_type_bit_count_eq]
      exact shift_one_mod (by omega)
    rw [after_double_eq_ok (by rw [hpos']; omega) (by rw [hpos']; omega) hij, hmi, hmj]

/-- Witness for C7 at the two-person start configuration `s = 8`:
persons 0 and 1 cross together. -/
theorem C7_witness :
    (2 ≤ max_people ∧ has_people 8 2)
      ∧ bridge_state_type.after_double_crossing ⟨8, []⟩ 0 1
          = .ok ⟨8 ^^^ torch_bit ^^^ 2 ^ 1 ^^^ 2 ^ 2, []⟩ :=
  ⟨⟨by decide, ⟨by decide, by decide⟩⟩,
    (C7_after_double_validation 8 2 0 1 (by decide) ⟨by decide, by decide⟩).2.2
      (by decide) (by decide) (by decide)⟩

/-- C8: `start` and `end` succeed exactly when `person_count` lies in
`[min_people, max_people]`, and otherwise fail with
`PersonCountOutOfRange`. -/
theorem C8_person_count_validation (n : Nat) :
    ((∃ st, bridge_state_type.start n = .ok st)
        ↔ (min_people ≤ n ∧ n ≤ max_people))
      ∧ ((∃ st, bridge_state_type.end_state n = .ok st)
          ↔ (min_people ≤ n ∧ n ≤ max_people))
      ∧ (¬(min_people ≤ n ∧ n ≤ max_people) →
          bridge_state_type.start n = .error .PersonCountOutOfRange
            ∧ bridge_state_type.end_state n = .error .PersonCountOutOfRange) := by
  refine ⟨⟨?_, ?_⟩, ⟨?_, ?_⟩, ?_⟩
  · rintro ⟨st, hst⟩
    obtain ⟨u, v, _⟩ := start_ok_inv hst
    exact ⟨u, v⟩
  · rintro ⟨hh1, hh2⟩
    exact ⟨_, start_eq hh1 hh2⟩
  · rintro ⟨st, hst⟩
    obtain ⟨u, v, _⟩ := end_state_ok_inv hst
    exact ⟨u, v⟩
  · rintro ⟨hh1, hh2⟩
    by_cases hb : n < max_people
    · exact ⟨_, end_state_eq hh1 hb⟩
    · have hq : n = max_people := by omega
      rw [hq]
      exact ⟨_, end_state_boundary⟩
  · intro hcon
    rcases validate_people_count_cases n with ⟨_, hr⟩ | ⟨hv, _⟩
    · exact absurd hr hcon
    · constructor
      · unfold bridge_state_type.start
        rw [hv]
      · unfold bridge_state_type.end_state
        rw [hv]

/-- Witness for C8 at the out-of-range counts 0 and `max_people + 1 = 31`. -/
theorem C8_witness :
    bridge_state_type.start 0 = .error .PersonCountOutOfRange
      ∧ bridge_state_type.start 31 = .error .PersonCountOutOfRange
      ∧ bridge_state_type.end_state 0 = .error .PersonCountOutOfRange
      ∧ bridge_state_type.end_state 31 = .error .PersonCountOutOfRange :=
  ⟨((C8_person_count_validation 0).2.2 (by decide)).1,
    ((C8_person_count_validation 31).2.2 (by decide)).1,
    ((C8_person_count_validation 0).2.2 (by decide)).2,
    ((C8_person_count_validation 31).2.2 (by decide)).2⟩

/-- C9: the worklist loop of the graph builder always terminates: with the
fuel the embedding supplies, `build` never returns the fuel-exhaustion
sentinel, for any times vector — the processing index always reaches the
node-list length (or the construction aborts with one of the program's own
errors), because only finitely many distinct 32-bit configurations exist
and the state-to-index map admits each at most once. -/
theorem C9_worklist_terminates (tm : List time_to_cross_type) :
    decide (build tm = Except.error error_kind.OutOfFuel) = false :=
  decide_eq_false (build_not_out_of_fuel tm)

/-- C10 (counterexample): the claimed property "end always sets the
sentinel" fails at `n = max_people = 30` — the shift by the full word
width, undefined in ISO C++, realizes the configuration `0`, which has no
sentinel bit, and the value fed to the leading-bit computation inside
`get_possible_crosser_indices` would be `0 >>> 1 = 0`, exactly the
argument on which `__builtin_clz` is undefined. -/
theorem C10_counterexample :
    bridge_state_type.end_state 30 = .ok ⟨0, []⟩
      ∧ decide (2 ^ (30 + 1) ≤ (0 : Nat)) = false
      ∧ (0 : Nat) >>> 1 = 0 := by
  refine ⟨?_, ?_, ?_⟩ <;> decide

/-- C10 (amended): every value on which `get_leading_one_pos` (hence
`__builtin_clz`, undefined on zero) is invoked from a validly constructed
configuration is nonzero: `start n` for every valid `n`, and `end n` for
`n < max_people`, produce configurations with the sentinel set, the two
crossing operations preserve the sentinel (they only flip bits strictly
below it), and a configuration with a sentinel is nonzero, and remains
nonzero after the `>>> 1` inside `get_possible_crosser_indices`.  The
exception is `end max_people`, whose undefined shift realizes the zero
configuration, a value that would reach the zero case; the program's
`main`, with its four-person input, never constructs it. -/
theorem C10_clz_argument_nonzero :
    (∀ n st, bridge_state_type.start n = .ok st → has_people st.state_repr n)
      ∧ (∀ n st, n < max_people → bridge_state_type.end_state n = .ok st →
          has_people st.state_repr n)
      ∧ (∀ n st i r, n ≤ max_people → has_people st.state_repr n →
          bridge_state_type.after_single_crossing st i = .ok r →
          has_people r.state_repr n)
      ∧ (∀ n st i j r, n ≤ max_people → has_people st.state_repr n →
          bridge_state_type.after_double_crossing st i j = .ok r →
          has_people r.state_repr n)
      ∧ (∀ n s, has_people s n → s ≠ 0 ∧ s >>> 1 ≠ 0) := by
  refine ⟨?_, ?_, ?_, ?_, ?_⟩
  · intro n st hst
    obtain ⟨_, _, heq⟩ := start_ok_inv hst
    subst heq
    show has_people (2 ^ (n + 1)) n
    exact ⟨le_refl _, Nat.pow_lt_pow_right (by omega) (by omega)⟩
  · intro n st hlt hst
    rw [end_state_eq (end_state_ok_inv hst).1 hlt] at hst
    have heq := (Except.ok.inj hst).symm
    subst heq
    show has_people (2 ^ (n + 2) - 1) n
    have heq2 : (2 : Nat) ^ (n + 2) = 2 * 2 ^ (n + 1) := by ring
    have hpos1 : (0 : Nat) < 2 ^ (n + 1) := by positivity
    have hpos2 : (0 : Nat) < 2 ^ (n + 2) := by positivity
    exact ⟨by omega, by omega⟩
  · intro n st i r hn hp h
    exact (after_single_preserves hn hp h).1
  · intro n st i j r hn hp h
    exact (after_double_preserves hn hp h).1
  · intro n s hp
    exact has_people_ne_zero hp

/-- Witness for C10: the one-person start configuration `4` is nonzero and
stays nonzero after the shift by one. -/
theorem C10_witness :
    has_people 4 1 ∧ ((4 : Nat) ≠ 0 ∧ (4 : Nat) >>> 1 ≠ 0) :=
  ⟨⟨by decide, by decide⟩, C10_clz_argument_nonzero.2.2.2.2 1 4 ⟨by decide, by decide⟩⟩

end RopeBridge
